import Mathlib

/-!
Shallow embedding of the multi-source dataset assembly and splitting pipeline
of `src/utils/multi_source_loader.py` (class `MultiSourceDataLoader` and the
free functions `shuffle_dataset`, `load_combined_dataset`, `get_data_splits`).

Modelling conventions:
* NumPy arrays of images/labels are Lean `List`s.  Images carry their shape
  (height, width, channels), their dtype (a string tag) and an abstract pixel
  content identifier `data : Nat`.
* The process-global NumPy random state is threaded explicitly as an `RngState`
  value.  `np.random.seed` replaces the state by a function of the seed alone;
  the draws themselves (`np.random.permutation`, `np.random.choice` with
  `replace=False`) are modelled by a concrete pseudo-random Fisher-Yates
  construction keyed on the state.  The claims never depend on the particular
  permutation values, only on the draws being permutations / distinct indices
  and deterministic functions of the state.
* Python floats used as fractions (source weight, TRAINING_PERCENTAGE,
  VALIDATION_SPLIT, test_size) are modelled as rationals; `int(x)` on a
  non-negative product is the floor.
* Fallible code (`int(...)` raising ValueError, `np.concatenate` raising on
  shape mismatch, `train_test_split` raising on class insufficiency) returns
  `Except String`.
* The filesystem and the external corpora (tf.keras MNIST, cv2.imread) are an
  explicit `World` parameter.  `cv2.imread` with default flags either fails or
  yields an 8-bit 3-channel image, which the model enforces by construction.
-/

/-- Python `str.split()` with no separator: split on whitespace runs, dropping
empty tokens. -/
def pySplitWs (s : String) : List String :=
  (s.split fun c => c.isWhitespace).filter fun t => t ≠ ""

/-- Continuation of `pyDigits` after at least one digit has been read:
underscores must be single and followed by a digit. -/
def pyDigitsAux : List Char → Bool
  | [] => true
  | '_' :: c :: rest => c.isDigit && pyDigitsAux rest
  | '_' :: [] => false
  | c :: rest => c.isDigit && pyDigitsAux rest

/-- Digit run acceptable to Python `int()`: nonempty decimal digits with
optional single underscores between digits. -/
def pyDigits : List Char → Bool
  | [] => false
  | c :: rest => c.isDigit && pyDigitsAux rest

/-- Numeric value of a digit run, ignoring underscores. -/
def digitsToNat (cs : List Char) : Nat :=
  (cs.filter fun c => c ≠ '_').foldl (fun a c => 10 * a + (c.toNat - '0'.toNat)) 0

/-- Model of Python `int(s)` on a string: optional surrounding whitespace,
optional sign, then decimal digits (single underscores allowed between
digits); returns `none` where Python raises `ValueError`. -/
def pyParseInt (s : String) : Option Int :=
  match s.trim.toList with
  | '+' :: rest => if pyDigits rest then some (digitsToNat rest : Int) else none
  | '-' :: rest => if pyDigits rest then some (-(digitsToNat rest : Int)) else none
  | rest => if pyDigits rest then some (digitsToNat rest : Int) else none

/-- Model of the process-global NumPy legacy random state
(`numpy.random.mtrand._rand`). -/
structure RngState where
  s : Nat
deriving DecidableEq, Repr

/-- Model of `np.random.seed(seed)`: the global state becomes a function of
the seed alone, independent of the previous state. -/
def npSeed (seed : Nat) : RngState :=
  ⟨seed % 2 ^ 32⟩

/-- One pseudo-random draw from the state (linear congruential model). -/
def rngNext (g : RngState) : Nat × RngState :=
  let v := (g.s * 1103515245 + 12345) % 2 ^ 31
  (v, ⟨v⟩)

/-- Fisher-Yates style draw of a pseudo-random arrangement of `pool`,
consuming the state; `fuel` bounds the recursion and is always instantiated
with at least `pool.length`. -/
def permDrawFuel : Nat → RngState → List Nat → List Nat × RngState
  | 0, g, _ => ([], g)
  | _ + 1, g, [] => ([], g)
  | fuel + 1, g, pool@(_ :: _) =>
    let (r, g1) := rngNext g
    let i := r % pool.length
    let x := pool.getD i 0
    let (rest, g2) := permDrawFuel fuel g1 (pool.eraseIdx i)
    (x :: rest, g2)

/-- Model of `np.random.permutation(n)`: a pseudo-random permutation of
`0, ..., n-1`, consuming the global state. -/
def npPermutation (g : RngState) (n : Nat) : List Nat × RngState :=
  permDrawFuel n g (List.range n)

/-- Model of `np.random.choice(n, size, replace=False)`: `size` distinct
pseudo-random indices below `n` (the first `size` entries of a pseudo-random
permutation), consuming the global state. -/
def npChoice (g : RngState) (n size : Nat) : List Nat × RngState :=
  let (p, g1) := npPermutation g n
  (p.take size, g1)

/-- NumPy fancy indexing `xs[idx]`: element `k` of the result is
`xs[idx[k]]`.  Out-of-range indices (which NumPy rejects; never produced by
the pipeline) are dropped. -/
def npIndex (xs : List α) (idx : List Nat) : List α :=
  idx.filterMap fun i => xs.get? i

/-- An image array: shape `(height, width, channels)`, dtype tag and an
abstract pixel-content identifier. -/
structure Image where
  height : Nat
  width : Nat
  channels : Nat
  dtype : String
  data : Nat
deriving DecidableEq, Repr

/-- The shape triple of an image. -/
def shapeOf (img : Image) : Nat × Nat × Nat :=
  (img.height, img.width, img.channels)

/-- One entry of `params.DATA_SOURCES`: `weight` is `none` when the key is
absent (`source_config.get('weight', 1.0)` then yields 1.0). -/
structure SourceConfig where
  name : String
  type : String
  path : String
  weight : Option Rat
deriving DecidableEq, Repr

/-- The configuration scalars of `parameters.py` consumed by the loader. -/
structure Params where
  NB_CLASSES : Nat
  USE_GRAYSCALE : Bool
  SHUFFLE_SEED : Nat
  TRAINING_PERCENTAGE : Rat
  VALIDATION_SPLIT : Rat
  DATA_SOURCES : List SourceConfig

/-- The external MNIST corpus as returned by
`tf.keras.datasets.mnist.load_data()`: raw 28x28 grayscale images (abstract
content ids) and their labels. -/
structure Mnist where
  xtrain : List Nat
  ytrain : List Int
  xtest : List Nat
  ytest : List Int

/-- A directory entry of a class folder: file name and the `cv2.imread`
outcome for its path (`none` = the decoder fails, else height, width and
content of the decoded 8-bit 3-channel image). -/
structure FileEntry where
  name : String
  content : Option (Nat × Nat × Nat)
deriving DecidableEq, Repr

/-- The filesystem as seen by `load_folder_structure`: whether the root
exists, and per class index the directory listing (`none` = missing class
directory). -/
structure FolderFS where
  rootExists : Bool
  classDirs : Nat → Option (List FileEntry)

/-- The filesystem as seen by `load_label_file_dataset`: existence of
`labels.txt` and `images/`, the manifest lines, and per file name the
`cv2.imread` outcome (`none` = the file does not exist). -/
structure LabelFS where
  hasLabelFile : Bool
  hasImagesDir : Bool
  lines : List String
  files : String → Option (Option (Nat × Nat × Nat))

/-- The external world: MNIST data and the filesystem contents behind each
configured source path. -/
structure World where
  mnist : Mnist
  folders : String → FolderFS
  labelfs : String → LabelFS

/-- Model of `cv2.imread` applied to a decode outcome: with default flags a
successful read is always an 8-bit BGR image (3 channels, dtype uint8). -/
def cv2_imread (o : Option (Nat × Nat × Nat)) : Option Image :=
  o.map fun t => ⟨t.1, t.2.1, 3, "uint8", t.2.2⟩

/-- `any(filename.lower().endswith(ext) for ext in ['.jpg','.jpeg','.png','.bmp'])`. -/
def hasImageExt (s : String) : Bool :=
  [".jpg", ".jpeg", ".png", ".bmp"].any fun e => s.toLower.endsWith e

/-- The MNIST format conversion of `load_builtin_dataset`: grayscale adds a
trailing singleton channel (`np.expand_dims`), otherwise the single channel
is replicated to 3 (`np.stack([images]*3, axis=-1)`); raw MNIST images are
28x28 uint8. -/
def mnistImage (grayscale : Bool) (d : Nat) : Image :=
  if grayscale then ⟨28, 28, 1, "uint8", d⟩ else ⟨28, 28, 3, "uint8", d⟩

/-- `MultiSourceDataLoader.load_builtin_dataset`: only the name `mnist`
(case-insensitively) is recognized; train and test parts are concatenated
and converted to the configured channel depth; an unknown name yields the
empty pair. -/
def load_builtin_dataset (p : Params) (mn : Mnist) (dataset_name : String) :
    List Image × List Int :=
  if dataset_name.toLower = "mnist" then
    ((mn.xtrain ++ mn.xtest).map (mnistImage p.USE_GRAYSCALE),
      mn.ytrain ++ mn.ytest)
  else ([], [])

/-- The images contributed by one class directory in
`load_folder_structure`: files with a recognized image extension that
decode; a missing class directory contributes nothing. -/
def folderClassImages (fs : FolderFS) (cls : Nat) : List Image :=
  match fs.classDirs cls with
  | none => []
  | some files =>
    files.filterMap fun fe =>
      if hasImageExt fe.name then cv2_imread fe.content else none

/-- `MultiSourceDataLoader.load_folder_structure`: for each class index in
`range NB_CLASSES`, load the decodable recognized-extension files of its
directory, labelling them with the class index; a missing root yields the
empty pair. -/
def load_folder_structure (p : Params) (fs : FolderFS) :
    List Image × List Int :=
  if fs.rootExists then
    let pairs := (List.range p.NB_CLASSES).flatMap fun cls =>
      (folderClassImages fs cls).map fun img => (img, (cls : Int))
    (pairs.map Prod.fst, pairs.map Prod.snd)
  else ([], [])

/-- The manifest loop of `load_label_file_dataset`, producing the (image,
label) pairs in manifest order.  A line with fewer than 2 tokens is skipped;
a line with at least 2 tokens runs `int(parts[1])` unconditionally, so a
non-integer second token raises (returns `.error`); a missing or undecodable
image file skips the line. -/
def labelLinesLoop (fs : LabelFS) : List String → Except String (List (Image × Int))
  | [] => .ok []
  | line :: rest =>
    let parts := pySplitWs line.trim
    if parts.length ≥ 2 then
      match pyParseInt (parts.getD 1 "") with
      | none => .error ("invalid literal for int with base 10: " ++ parts.getD 1 "")
      | some label =>
        match fs.files (parts.getD 0 "") with
        | none => labelLinesLoop fs rest
        | some dec =>
          match cv2_imread dec with
          | none => labelLinesLoop fs rest
          | some img => (labelLinesLoop fs rest).map fun ps => (img, label) :: ps
    else labelLinesLoop fs rest

/-- `MultiSourceDataLoader.load_label_file_dataset`: empty pair if
`labels.txt` or `images/` is missing, otherwise the manifest loop (which can
raise on a non-integer label token). -/
def load_label_file_dataset (fs : LabelFS) :
    Except String (List Image × List Int) :=
  if fs.hasLabelFile && fs.hasImagesDir then
    match labelLinesLoop fs fs.lines with
    | .error e => .error e
    | .ok pairs => .ok (pairs.map Prod.fst, pairs.map Prod.snd)
  else .ok ([], [])

/-- `MultiSourceDataLoader.load_mnist_fallback`. -/
def load_mnist_fallback (p : Params) (w : World) : List Image × List Int :=
  load_builtin_dataset p w.mnist "mnist"

/-- `MultiSourceDataLoader.get_class_distribution`: per class id below
`NB_CLASSES` the number of occurrences in the label vector, omitting classes
with zero occurrences. -/
def get_class_distribution (p : Params) (labels : List Int) : List (Nat × Nat) :=
  (List.range p.NB_CLASSES).filterMap fun i =>
    let c := labels.countP fun l => decide (l = Int.ofNat i)
    if c > 0 then some (i, c) else none

/-- One source's entry in `self.source_stats`. -/
structure SourceStats where
  count : Nat
  class_distribution : List (Nat × Nat)
deriving DecidableEq, Repr

/-- Model of `np.concatenate(batches, axis=0)` on image batches: NumPy
requires all (4-d) batch arrays to agree on the trailing dimensions; this is
modelled as all images across the batches sharing one shape (the shape
carried by an empty batch is not tracked).  On success the result is the
flat concatenation. -/
def np_concatenate_images (batches : List (List Image)) :
    Except String (List Image) :=
  match batches.flatten with
  | [] => .ok []
  | x :: xs =>
    if xs.all fun i => decide (shapeOf i = shapeOf x) then .ok (batches.flatten)
    else .error "all the input array dimensions must match exactly"

/-- The mutable state of one `load_all_sources` run: the accumulation lists
`self.all_images` / `self.all_labels`, the statistics dictionary
`self.source_stats` (an association list in insertion order), and the global
NumPy random state. -/
structure AggState where
  all_images : List (List Image)
  all_labels : List (List Int)
  source_stats : List (String × SourceStats)
  rng : RngState

/-- The `type` dispatch at the top of the per-source loop: `none` models the
`else: continue` branch for an unknown source type. -/
def loadSource (p : Params) (w : World) (c : SourceConfig) :
    Option (Except String (List Image × List Int)) :=
  if c.type = "builtin" then some (.ok (load_builtin_dataset p w.mnist c.name))
  else if c.type = "folder_structure" then
    some (.ok (load_folder_structure p (w.folders c.path)))
  else if c.type = "label_file" then
    some (load_label_file_dataset (w.labelfs c.path))
  else none

/-- One iteration of the `load_all_sources` loop: dispatch, skip on unknown
type or empty batch, weighted subsampling (`int(len * weight)` indices drawn
without replacement) when `weight < 1.0`, record statistics, append to the
accumulation lists.  A reader exception propagates. -/
def processSource (p : Params) (w : World) (st : AggState) (c : SourceConfig) :
    Except String AggState :=
  match loadSource p w c with
  | none => .ok st
  | some (.error e) => .error e
  | some (.ok (images, labels)) =>
    if images.length = 0 then .ok st
    else
      let weight := c.weight.getD 1
      let (images2, labels2, rng2) :=
        if weight < 1 ∧ images.length > 0 then
          let sample_size := (⌊(images.length : ℚ) * weight⌋).toNat
          let (indices, g1) := npChoice st.rng images.length sample_size
          (npIndex images indices, npIndex labels indices, g1)
        else (images, labels, st.rng)
      .ok { all_images := st.all_images ++ [images2],
            all_labels := st.all_labels ++ [labels2],
            source_stats := st.source_stats ++
              [(c.name, ⟨images2.length, get_class_distribution p labels2⟩)],
            rng := rng2 }

/-- `MultiSourceDataLoader.load_all_sources`: iterate the configured sources,
then either fall back to the builtin MNIST corpus (when the accumulation
list is empty) or concatenate the accumulated batches.  Returns the corpus
together with the statistics dictionary and the final random state. -/
def load_all_sources (p : Params) (w : World) (g : RngState) :
    Except String ((List Image × List Int) × List (String × SourceStats) × RngState) := do
  let st ← p.DATA_SOURCES.foldlM (processSource p w) (AggState.mk [] [] [] g)
  if st.all_images.isEmpty then
    .ok (load_mnist_fallback p w, st.source_stats, st.rng)
  else do
    let ci ← np_concatenate_images st.all_images
    .ok ((ci, st.all_labels.flatten), st.source_stats, st.rng)

/-- `shuffle_dataset(images, labels, seed)`: reseed the global NumPy state
with `seed`, draw one permutation of `len(images)` indices and apply it to
both sequences. -/
def shuffle_dataset (images : List α) (labels : List β) (seed : Nat)
    (g : RngState) : (List α × List β) × RngState :=
  let g1 := npSeed seed
  let (indices, g2) := npPermutation g1 images.length
  ((npIndex images indices, npIndex labels indices), g2)

/-- `load_combined_dataset()`: load all sources then shuffle with
`params.SHUFFLE_SEED` (the value the mutable default argument was bound
to). -/
def load_combined_dataset (p : Params) (w : World) (g : RngState) :
    Except String ((List Image × List Int) × RngState) := do
  let (corpus, _, g1) ← load_all_sources p w g
  let (shuffled, g2) := shuffle_dataset corpus.1 corpus.2 p.SHUFFLE_SEED g1
  .ok (shuffled, g2)

/-- Second pass of sklearn's `_approximate_mode`: hand out the `need`
remaining draws over the (floored allocation, capacity) pairs, never
exceeding a class's capacity.  sklearn orders the increments by largest
fractional remainder with random tie-breaking; the model hands them out
greedily in class order, which yields the same per-class totals wherever the
claims depend on them (sums, capacity bounds, partition sizes). -/
def skDistribute : Nat → List (Nat × Nat) → List Nat
  | 0, l => l.map Prod.fst
  | _ + 1, [] => []
  | need + 1, (f, c) :: rest =>
    let add := min (need + 1) (c - f)
    (f + add) :: skDistribute (need + 1 - add) rest

/-- sklearn `_approximate_mode(class_counts, n_draws)`: floor the
proportional allocation `count * n / total` per class, then distribute the
remaining draws. -/
def approxMode (counts : List Nat) (n : Nat) : List Nat :=
  let total := counts.sum
  let floored := counts.map fun c => c * n / total
  skDistribute (n - floored.sum) (floored.zip counts)

/-- Model of `np.unique(y)`: the distinct values of `y` in ascending
order. -/
def npUnique (y : List Int) : List Int :=
  (List.insertionSort (fun a b => a ≤ b) y).dedup

/-- `np.where(y == c)[0]`: the indices of `y` holding the label `c`, in
ascending order. -/
def classIndices (y : List Int) (c : Int) : List Nat :=
  (List.range y.length).filter fun i => decide (y.getD i 0 = c)

/-- The per-class index selection of sklearn's
`StratifiedShuffleSplit._iter_indices`: for each `(class, n_train_c,
n_test_c)` triple, draw a pseudo-random arrangement of the class's indices
and send the first `n_train_c` to the train side and the next `n_test_c` to
the test side, threading the split's random state. -/
def strataDraw (y : List Int) :
    RngState → List (Int × Nat × Nat) → List Nat × List Nat × RngState
  | g, [] => ([], [], g)
  | g, (c, ntr, nte) :: rest =>
    let idx := classIndices y c
    let (perm, g1) := permDrawFuel idx.length g idx
    let (tr, te, g2) := strataDraw y g1 rest
    (perm.take ntr ++ tr, ((perm.drop ntr).take nte) ++ te, g2)

/-- The per-class counts of the sorted distinct classes of `y`
(`np.unique(y, return_counts=True)`). -/
def stratCounts (y : List Int) : List Nat :=
  (npUnique y).map fun c => y.countP fun l => decide (l = c)

/-- `n_test = ceil(test_size * n_samples)` of sklearn's
`_validate_shuffle_split` for a fractional `test_size`. -/
def stratNTest (y : List Int) (test_size : Rat) : Nat :=
  (⌈test_size * (y.length : ℚ)⌉).toNat

/-- `n_train = n_samples - n_test` (the complement default). -/
def stratNTrain (y : List Int) (test_size : Rat) : Nat :=
  y.length - stratNTest y test_size

/-- Per-class train-side allocation: `_approximate_mode(class_counts, n_train)`. -/
def stratTrainAlloc (y : List Int) (test_size : Rat) : List Nat :=
  approxMode (stratCounts y) (stratNTrain y test_size)

/-- Per-class test-side allocation:
`_approximate_mode(class_counts - n_i, n_test)`. -/
def stratTestAlloc (y : List Int) (test_size : Rat) : List Nat :=
  approxMode (((stratCounts y).zip (stratTrainAlloc y test_size)).map
    fun q => q.1 - q.2) (stratNTest y test_size)

/-- The (class, train allocation, test allocation) triples driving the
per-class index selection. -/
def stratTriples (y : List Int) (test_size : Rat) : List (Int × Nat × Nat) :=
  (npUnique y).zip ((stratTrainAlloc y test_size).zip (stratTestAlloc y test_size))

/-- Model of sklearn's `StratifiedShuffleSplit` index generation as used by
`train_test_split(..., shuffle=True, stratify=y, random_state=seed)`:
`n_test = ceil(test_size * n)`, `n_train = n - n_test`; raises when the
corpus is empty, when the least populated class has fewer than 2 members, or
when a side cannot hold one member of every class; otherwise allocates
per-class counts with `_approximate_mode` and selects per-class
pseudo-random index subsets (deterministic in `seed`). -/
def stratifiedIndices (y : List Int) (test_size : Rat) (seed : Nat) :
    Except String (List Nat × List Nat) :=
  if (npUnique y).isEmpty then
    .error "zero-size array to reduction operation minimum"
  else if (stratCounts y).any fun k => decide (k < 2) then
    .error "The least populated class in y has only 1 member, which is too few."
  else if stratNTrain y test_size < (npUnique y).length then
    .error "The train_size should be greater or equal to the number of classes"
  else if stratNTest y test_size < (npUnique y).length then
    .error "The test_size should be greater or equal to the number of classes"
  else
    .ok ((strataDraw y (npSeed seed) (stratTriples y test_size)).1,
      (strataDraw y (npSeed seed) (stratTriples y test_size)).2.1)

/-- sklearn `train_test_split(X, y, test_size, random_state, shuffle=True,
stratify=y)`: validates that `X` and `y` have the same number of samples,
draws the stratified index split, and returns
`(X_train, X_test, y_train, y_test)` by fancy indexing. -/
def train_test_split (X : List α) (y : List Int) (test_size : Rat)
    (seed : Nat) : Except String (List α × List α × List Int × List Int) :=
  if X.length = y.length then
    match stratifiedIndices y test_size seed with
    | .error e => .error e
    | .ok (tr, te) => .ok (npIndex X tr, npIndex X te, npIndex y tr, npIndex y te)
  else .error "Found input variables with inconsistent numbers of samples"

/-- Whether a manifest line triggers the unguarded `int(parts[1])` call with
a non-integer token: at least 2 tokens and an unparseable second token. -/
def lineBad (line : String) : Bool :=
  let parts := pySplitWs line.trim
  decide (parts.length ≥ 2) && (pyParseInt (parts.getD 1 "")).isNone

/-- The (image, label) pair a manifest line contributes, when it contributes
one: at least 2 tokens, integer-parseable second token, existing and
decodable image file. -/
def linePair (fs : LabelFS) (line : String) : Option (Image × Int) :=
  let parts := pySplitWs line.trim
  if parts.length ≥ 2 then
    match pyParseInt (parts.getD 1 "") with
    | none => none
    | some label =>
      match fs.files (parts.getD 0 "") with
      | none => none
      | some dec => (cv2_imread dec).map fun img => (img, label)
  else none

/-- All pairs contributed by a manifest, in manifest order. -/
def manifestPairs (fs : LabelFS) : List (Image × Int) :=
  fs.lines.filterMap (linePair fs)

/-- A configured source contributes a batch to the accumulation list: its
type is known, its reader returns without raising, and the returned batch is
nonempty. -/
def Contributes (p : Params) (w : World) (c : SourceConfig) : Prop :=
  ∃ imgs labs, loadSource p w c = some (.ok (imgs, labs)) ∧ imgs ≠ []

/-- `get_data_splits()`: load and shuffle the combined corpus, truncate to
the first `int(total * TRAINING_PERCENTAGE)` samples, then two stratified
splits: 20% test, then `VALIDATION_SPLIT` of the remainder as validation,
both seeded with `SHUFFLE_SEED`. -/
def get_data_splits (p : Params) (w : World) (g : RngState) :
    Except String ((List Image × List Int) × (List Image × List Int) ×
      (List Image × List Int)) := do
  let ((images0, labels0), _) ← load_combined_dataset p w g
  let total_samples := images0.length
  let training_samples := (⌊(total_samples : ℚ) * p.TRAINING_PERCENTAGE⌋).toNat
  let images := images0.take training_samples
  let labels := labels0.take training_samples
  let (x_train_val, x_test, y_train_val, y_test) ←
    train_test_split images labels (1 / 5) p.SHUFFLE_SEED
  let (x_train, x_val, y_train, y_val) ←
    train_test_split x_train_val y_train_val p.VALIDATION_SPLIT p.SHUFFLE_SEED
  .ok ((x_train, y_train), (x_val, y_val), (x_test, y_test))

/-! ### Concrete instances used to witness and refute claims -/

/-- A tiny MNIST stand-in: 3 images with labels 3, 4, 5. -/
def mnistEx : Mnist :=
  ⟨[100, 101], [3, 4], [102], [5]⟩

/-- A label-file directory that is entirely missing. -/
def labelMissEx : LabelFS :=
  ⟨false, false, [], fun _ => none⟩

/-- A class-folder tree with two decodable 9x9 files in class 0. -/
def folderTwoEx : FolderFS :=
  ⟨true, fun c =>
    if c = 0 then some [⟨"a.png", some (9, 9, 50)⟩, ⟨"b.png", some (9, 9, 51)⟩]
    else none⟩

/-- A class-folder tree with five decodable files each in classes 0 and 1. -/
def folderTenEx : FolderFS :=
  ⟨true, fun c =>
    if c = 0 then
      some [⟨"a0.png", some (9, 9, 20)⟩, ⟨"a1.png", some (9, 9, 21)⟩,
        ⟨"a2.png", some (9, 9, 22)⟩, ⟨"a3.png", some (9, 9, 23)⟩,
        ⟨"a4.png", some (9, 9, 24)⟩]
    else if c = 1 then
      some [⟨"b0.png", some (9, 9, 30)⟩, ⟨"b1.png", some (9, 9, 31)⟩,
        ⟨"b2.png", some (9, 9, 32)⟩, ⟨"b3.png", some (9, 9, 33)⟩,
        ⟨"b4.png", some (9, 9, 34)⟩]
    else none⟩

/-- A class-folder tree where class 1 holds a single file (an
under-populated class). -/
def folderSingEx : FolderFS :=
  ⟨true, fun c =>
    if c = 0 then some [⟨"a.png", some (9, 9, 50)⟩, ⟨"b.png", some (9, 9, 51)⟩]
    else if c = 1 then some [⟨"c.png", some (9, 9, 52)⟩]
    else none⟩

/-- World whose every folder path shows `folderTwoEx`. -/
def worldTwoEx : World :=
  ⟨mnistEx, fun _ => folderTwoEx, fun _ => labelMissEx⟩

/-- World whose every folder path shows `folderTenEx`. -/
def worldTenEx : World :=
  ⟨mnistEx, fun _ => folderTenEx, fun _ => labelMissEx⟩

/-- World whose every folder path shows `folderSingEx`. -/
def worldSingEx : World :=
  ⟨mnistEx, fun _ => folderSingEx, fun _ => labelMissEx⟩

/-- One folder source, full weight, grayscale configuration on. -/
def paramsFolderEx : Params :=
  ⟨3, true, 42, 1, 1 / 4, [⟨"fold", "folder_structure", "/data", none⟩]⟩

/-- One folder source with weight 1/2. -/
def paramsHalfEx : Params :=
  ⟨3, true, 42, 1, 1 / 4, [⟨"fold", "folder_structure", "/data", some (1 / 2)⟩]⟩

/-- One folder source with weight 1/4 (subsamples 2 images to 0). -/
def paramsQuarterEx : Params :=
  ⟨3, true, 42, 1, 1 / 4, [⟨"fold", "folder_structure", "/data", some (1 / 4)⟩]⟩

/-- One source of unknown type. -/
def paramsUnknownEx : Params :=
  ⟨3, true, 42, 1, 1 / 4, [⟨"x", "weird", "/p", none⟩]⟩

/-- Two-class configuration over the ten-image folder world. -/
def paramsTenEx : Params :=
  ⟨2, true, 42, 1, 1 / 4, [⟨"fold", "folder_structure", "/d", none⟩]⟩

/-- Two-class configuration over the singleton-class folder world. -/
def paramsSingEx : Params :=
  ⟨2, true, 42, 1, 1 / 4, [⟨"fold", "folder_structure", "/d", none⟩]⟩

/-- A manifest whose one line has two tokens but a non-integer label
token. -/
def labelBadEx : LabelFS :=
  ⟨true, true, ["img.png abc"], fun _ => some (some (9, 9, 60))⟩

/-- A manifest exercising every soft-skip path: a good line, a line whose
image file is missing, another good line, and a 1-token line. -/
def labelGoodEx : LabelFS :=
  ⟨true, true, ["a.png 1", "missing.png 2", "b.png 0", "short"],
    fun n => if n = "missing.png" then none else some (some (9, 9, 60))⟩

/-! ### Helper lemmas: fancy indexing -/

theorem zip_get? (xs : List α) (ys : List β) (i : Nat) :
    (xs.zip ys).get? i = (xs.get? i).bind fun a => (ys.get? i).map fun b => (a, b) := by
  induction xs generalizing ys i with
  | nil => simp
  | cons x xs ih =>
    cases ys with
    | nil => simp
    | cons y ys =>
      cases i with
      | zero => simp
      | succ j => simpa using ih ys j

theorem npIndex_nil (idx : List Nat) : npIndex ([] : List α) idx = [] := by
  induction idx with
  | nil => rfl
  | cons i idx ih =>
    simp only [npIndex] at ih ⊢
    have hx : ([] : List α).get? i = none := by
      simp [List.get?_eq_getElem?]
    rw [List.filterMap_cons_none hx, ih]

theorem npIndex_append (xs : List α) (i1 i2 : List Nat) :
    npIndex xs (i1 ++ i2) = npIndex xs i1 ++ npIndex xs i2 :=
  List.filterMap_append i1 i2 _

theorem npIndex_length_congr (xs : List α) (ys : List β) (idx : List Nat)
    (h : xs.length = ys.length) :
    (npIndex xs idx).length = (npIndex ys idx).length := by
  induction idx with
  | nil => rfl
  | cons i idx ih =>
    simp only [npIndex] at ih ⊢
    rcases Nat.lt_or_ge i xs.length with hi | hi
    · obtain ⟨x, hx⟩ : ∃ x, xs.get? i = some x := by
        rw [List.get?_eq_getElem?, List.getElem?_eq_getElem hi]
        exact ⟨_, rfl⟩
      obtain ⟨y, hy⟩ : ∃ y, ys.get? i = some y := by
        rw [List.get?_eq_getElem?, List.getElem?_eq_getElem (h ▸ hi)]
        exact ⟨_, rfl⟩
      rw [List.filterMap_cons_some hx, List.filterMap_cons_some hy,
        List.length_cons, List.length_cons, ih]
    · have hx : xs.get? i = none := by
        rw [List.get?_eq_getElem?]
        exact List.getElem?_eq_none hi
      have hy : ys.get? i = none := by
        rw [List.get?_eq_getElem?]
        exact List.getElem?_eq_none (h ▸ hi)
      rw [List.filterMap_cons_none hx, List.filterMap_cons_none hy, ih]

theorem npIndex_length_of_lt (xs : List α) (idx : List Nat)
    (h : ∀ i ∈ idx, i < xs.length) :
    (npIndex xs idx).length = idx.length := by
  induction idx with
  | nil => rfl
  | cons i idx ih =>
    have hi : i < xs.length := h i (List.mem_cons_self i idx)
    obtain ⟨x, hx⟩ : ∃ x, xs.get? i = some x := by
      rw [List.get?_eq_getElem?, List.getElem?_eq_getElem hi]
      exact ⟨_, rfl⟩
    simp only [npIndex] at ih ⊢
    rw [List.filterMap_cons_some hx, List.length_cons, List.length_cons,
      ih fun j hj => h j (List.mem_cons_of_mem i hj)]

theorem npIndex_range_self (xs : List α) :
    npIndex xs (List.range xs.length) = xs := by
  induction xs with
  | nil => rfl
  | cons x xs ih =>
    simp only [npIndex, List.length_cons, List.range_succ_eq_map, List.filterMap_cons,
      List.filterMap_map]
    rw [show (x :: xs).get? 0 = some x from rfl]
    have hc : (fun i => (x :: xs).get? i) ∘ Nat.succ = fun i => xs.get? i := by
      funext i
      simp [List.get?_eq_getElem?]
    rw [hc]
    exact congrArg (x :: ·) ih

theorem npIndex_perm (xs : List α) (idx : List Nat)
    (h : idx.Perm (List.range xs.length)) : (npIndex xs idx).Perm xs := by
  have hp := List.Perm.filterMap (fun i => xs.get? i) h
  rw [show List.filterMap (fun i => xs.get? i) (List.range xs.length)
      = npIndex xs (List.range xs.length) from rfl, npIndex_range_self] at hp
  exact hp

theorem npIndex_zip (xs : List α) (ys : List β) (idx : List Nat)
    (h : xs.length = ys.length) :
    npIndex (xs.zip ys) idx = (npIndex xs idx).zip (npIndex ys idx) := by
  induction idx with
  | nil => rfl
  | cons i idx ih =>
    simp only [npIndex] at ih ⊢
    rcases Nat.lt_or_ge i xs.length with hi | hi
    · obtain ⟨x, hx⟩ : ∃ x, xs.get? i = some x := by
        rw [List.get?_eq_getElem?, List.getElem?_eq_getElem hi]
        exact ⟨_, rfl⟩
      obtain ⟨y, hy⟩ : ∃ y, ys.get? i = some y := by
        rw [List.get?_eq_getElem?, List.getElem?_eq_getElem (h ▸ hi)]
        exact ⟨_, rfl⟩
      have hz : (xs.zip ys).get? i = some (x, y) := by
        rw [zip_get?, hx, hy]
        rfl
      rw [List.filterMap_cons_some hz, List.filterMap_cons_some hx,
        List.filterMap_cons_some hy, List.zip_cons_cons, ih]
    · have hx : xs.get? i = none := by
        rw [List.get?_eq_getElem?]
        exact List.getElem?_eq_none hi
      have hy : ys.get? i = none := by
        rw [List.get?_eq_getElem?]
        exact List.getElem?_eq_none (h ▸ hi)
      have hz : (xs.zip ys).get? i = none := by
        rw [zip_get?, hx]
        rfl
      rw [List.filterMap_cons_none hz, List.filterMap_cons_none hx,
        List.filterMap_cons_none hy, ih]

theorem npIndex_mem (xs : List α) (idx : List Nat) (a : α)
    (h : a ∈ npIndex xs idx) : a ∈ xs := by
  rcases List.mem_filterMap.mp h with ⟨i, _, hget⟩
  exact List.get?_mem hget

theorem npIndex_get? (xs : List α) (idx : List Nat)
    (h : ∀ i ∈ idx, i < xs.length) (j : Nat) :
    (npIndex xs idx).get? j = (idx.get? j).bind fun i => xs.get? i := by
  induction idx generalizing j with
  | nil => simp [npIndex]
  | cons i idx ih =>
    have hi : i < xs.length := h i (List.mem_cons_self i idx)
    obtain ⟨x, hx⟩ : ∃ x, xs.get? i = some x := by
      rw [List.get?_eq_getElem?, List.getElem?_eq_getElem hi]
      exact ⟨_, rfl⟩
    simp only [npIndex] at ih ⊢
    rw [List.filterMap_cons_some hx]
    cases j with
    | zero =>
      simp only [List.get?_eq_getElem?] at hx ⊢
      simp [hx]
    | succ k =>
      have h1 : (x :: List.filterMap (fun i => xs.get? i) idx).get? (k + 1)
          = (List.filterMap (fun i => xs.get? i) idx).get? k := by
        simp [List.get?_eq_getElem?]
      have h2 : (i :: idx).get? (k + 1) = idx.get? k := by
        simp [List.get?_eq_getElem?]
      rw [h1, h2, ih fun j hj => h j (List.mem_cons_of_mem i hj)]

theorem npIndex_npIndex (xs : List α) (I J : List Nat)
    (hI : ∀ i ∈ I, i < xs.length) :
    npIndex (npIndex xs I) J = npIndex xs (npIndex I J) := by
  induction J with
  | nil => rfl
  | cons j J ih =>
    rcases hj : I.get? j with _ | i
    · have hn : (npIndex xs I).get? j = none := by
        rw [npIndex_get? xs I hI j, hj]
        rfl
      simp only [npIndex] at hn hj ih ⊢
      rw [List.filterMap_cons_none hn, List.filterMap_cons_none hj, ih]
    · have hilt : i < xs.length := hI i (List.get?_mem hj)
      obtain ⟨x, hx⟩ : ∃ x, xs.get? i = some x := by
        rw [List.get?_eq_getElem?, List.getElem?_eq_getElem hilt]
        exact ⟨_, rfl⟩
      have hsome : (npIndex xs I).get? j = some x := by
        rw [npIndex_get? xs I hI j, hj, Option.some_bind, hx]
      simp only [npIndex] at hsome hj hx ih ⊢
      rw [List.filterMap_cons_some hsome, List.filterMap_cons_some hj,
        List.filterMap_cons_some hx, ih]

/-! ### Helper lemmas: pseudo-random permutation draws -/

theorem cons_eraseIdx_perm :
    ∀ (l : List Nat) (i : Nat), i < l.length →
      (l.getD i 0 :: l.eraseIdx i).Perm l
  | [], i, h => absurd h (by simp)
  | a :: l, 0, _ => by simp
  | a :: l, i + 1, h => by
    have hlt : i < l.length := by simpa using h
    rw [List.getD_cons_succ, List.eraseIdx_cons_succ]
    exact (List.Perm.swap a (l.getD i 0) _).trans ((cons_eraseIdx_perm l i hlt).cons a)

theorem permDrawFuel_perm :
    ∀ (fuel : Nat) (g : RngState) (pool : List Nat), pool.length ≤ fuel →
      ((permDrawFuel fuel g pool).1).Perm pool
  | 0, g, pool, h => by
    have : pool = [] := List.eq_nil_of_length_eq_zero (Nat.le_zero.mp h)
    subst this
    rfl
  | fuel + 1, g, [], _ => by rfl
  | fuel + 1, g, a :: pool, h => by
    set l := a :: pool with hl
    have hne : l.length ≠ 0 := by simp [hl]
    set i := (rngNext g).1 % l.length with hi
    have hilt : i < l.length := Nat.mod_lt _ (Nat.pos_of_ne_zero hne)
    have herl : (l.eraseIdx i).length ≤ fuel := by
      rw [List.length_eraseIdx, if_pos hilt]
      have := h
      simp only [hl, List.length_cons] at this ⊢
      omega
    have ih := permDrawFuel_perm fuel (rngNext g).2 (l.eraseIdx i) herl
    show ((l.getD i 0 :: (permDrawFuel fuel (rngNext g).2 (l.eraseIdx i)).1)).Perm l
    exact (ih.cons (l.getD i 0)).trans (cons_eraseIdx_perm l i hilt)

theorem npPermutation_perm (g : RngState) (n : Nat) :
    ((npPermutation g n).1).Perm (List.range n) :=
  permDrawFuel_perm n g (List.range n) (by rw [List.length_range])

theorem npPermutation_length (g : RngState) (n : Nat) :
    (npPermutation g n).1.length = n := by
  rw [(npPermutation_perm g n).length_eq, List.length_range]

theorem npPermutation_nodup (g : RngState) (n : Nat) :
    (npPermutation g n).1.Nodup :=
  ((npPermutation_perm g n).nodup_iff).mpr (List.nodup_range n)

theorem npPermutation_mem_lt (g : RngState) (n : Nat) (i : Nat)
    (h : i ∈ (npPermutation g n).1) : i < n :=
  List.mem_range.mp ((npPermutation_perm g n).mem_iff.mp h)

theorem npChoice_nodup (g : RngState) (n size : Nat) :
    (npChoice g n size).1.Nodup :=
  ((List.take_sublist size _).nodup) (npPermutation_nodup g n)

theorem npChoice_mem_lt (g : RngState) (n size : Nat) (i : Nat)
    (h : i ∈ (npChoice g n size).1) : i < n :=
  npPermutation_mem_lt g n i (List.mem_of_mem_take h)

theorem npChoice_length (g : RngState) (n size : Nat) (h : size ≤ n) :
    (npChoice g n size).1.length = size := by
  show (List.take size (npPermutation g n).1).length = size
  rw [List.length_take, npPermutation_length, Nat.min_eq_left h]

/-! ### Claim C2: shuffle is a seeded, pairing-preserving bijection -/

/-- C2: for every corpus and seed, `shuffle_dataset` preserves the multiset
of (image, label) pairs, applies one single permutation of indices
identically to the image and the label sequence, and is deterministic for a
fixed seed (two calls with the same input and seed agree, whatever the
incoming global random state was). -/
theorem c2_shuffle_bijection_deterministic {α β : Type} (images : List α)
    (labels : List β) (seed : Nat) (g : RngState)
    (h : images.length = labels.length) :
    ((((shuffle_dataset images labels seed g).1.1).zip
      ((shuffle_dataset images labels seed g).1.2)).Perm (images.zip labels)) ∧
    (∃ perm : List Nat, perm.Perm (List.range images.length) ∧
      (shuffle_dataset images labels seed g).1.1 = npIndex images perm ∧
      (shuffle_dataset images labels seed g).1.2 = npIndex labels perm) ∧
    (∀ g2 : RngState,
      shuffle_dataset images labels seed g2 = shuffle_dataset images labels seed g) := by
  have hperm : ((npPermutation (npSeed seed) images.length).1).Perm
      (List.range images.length) := npPermutation_perm _ _
  have h1 : (shuffle_dataset images labels seed g).1.1
      = npIndex images (npPermutation (npSeed seed) images.length).1 := rfl
  have h2 : (shuffle_dataset images labels seed g).1.2
      = npIndex labels (npPermutation (npSeed seed) images.length).1 := rfl
  refine ⟨?_, ⟨_, hperm, h1, h2⟩, fun g2 => rfl⟩
  rw [h1, h2, ← npIndex_zip images labels _ h]
  apply npIndex_perm
  rw [List.length_zip, h, Nat.min_self]
  rw [← h]
  exact hperm

/-- Witness for C2 at a concrete corpus and seed. -/
theorem c2_witness :
    ([10, 20] : List Nat).length = ([5, 6] : List Int).length ∧
    ((((shuffle_dataset [10, 20] [5, 6] 42 ⟨7⟩).1.1).zip
      ((shuffle_dataset [10, 20] [5, 6] 42 ⟨7⟩).1.2)).Perm [(10, 5), (20, 6)]) :=
  ⟨rfl, (c2_shuffle_bijection_deterministic [10, 20] [5, 6] 42 ⟨7⟩ rfl).1⟩

/-! ### Claim C10: shuffling reseeds the process-global random state -/

/-- C10: `shuffle_dataset` overwrites the global NumPy random state by
reseeding with the given seed before drawing, so its entire outcome -
including the state left behind for all later draws - is a function of the
seed and the data alone, independent of the incoming state; whereas
randomness consumed before the shuffle (the weighted subsampling inside
`load_all_sources`) does depend on the incoming state, witnessed by a
concrete configuration whose corpora differ for two initial states. -/
theorem c10_shuffle_reseeds_global_state :
    (∀ (α β : Type) (images : List α) (labels : List β) (seed : Nat)
      (g1 g2 : RngState),
      shuffle_dataset images labels seed g1 = shuffle_dataset images labels seed g2) ∧
    load_all_sources paramsHalfEx worldTwoEx ⟨0⟩ ≠
      load_all_sources paramsHalfEx worldTwoEx ⟨1⟩ := by
  constructor
  · intro α β images labels seed g1 g2
    rfl
  · intro hcon
    have h1 : load_all_sources paramsHalfEx worldTwoEx ⟨0⟩ =
        .ok (([⟨9, 9, 3, "uint8", 51⟩], [0]),
          [("fold", ⟨1, [(0, 1)]⟩)], ⟨1406932606⟩) := by
      with_unfolding_all rfl
    have h2 : load_all_sources paramsHalfEx worldTwoEx ⟨1⟩ =
        .ok (([⟨9, 9, 3, "uint8", 50⟩], [0]),
          [("fold", ⟨1, [(0, 1)]⟩)], ⟨377401575⟩) := by
      with_unfolding_all rfl
    rw [h1, h2] at hcon
    have := Except.ok.inj hcon
    revert this
    decide

/-! ### Claim C5: weighted subsampling -/

/-- C5: a source whose reader returned a nonempty batch and whose weight `w`
is below 1 is subsampled to exactly `floor(count * w)` images, drawn as
distinct indices (without replacement); a source with weight exactly 1 is
passed through unchanged. -/
theorem c5_weight_subsampling (p : Params) (w : World) (st : AggState)
    (c : SourceConfig) (imgs : List Image) (labs : List Int) (w0 : Rat)
    (hload : loadSource p w c = some (.ok (imgs, labs)))
    (hw : c.weight = some w0) (hpos : 0 < w0) (hne : imgs ≠ []) :
    (w0 < 1 →
      (processSource p w st c = .ok
        { all_images := st.all_images ++
            [npIndex imgs (npChoice st.rng imgs.length
              ((⌊(imgs.length : ℚ) * w0⌋).toNat)).1],
          all_labels := st.all_labels ++
            [npIndex labs (npChoice st.rng imgs.length
              ((⌊(imgs.length : ℚ) * w0⌋).toNat)).1],
          source_stats := st.source_stats ++
            [(c.name, ⟨(npIndex imgs (npChoice st.rng imgs.length
                ((⌊(imgs.length : ℚ) * w0⌋).toNat)).1).length,
              get_class_distribution p (npIndex labs (npChoice st.rng imgs.length
                ((⌊(imgs.length : ℚ) * w0⌋).toNat)).1)⟩)],
          rng := (npChoice st.rng imgs.length
            ((⌊(imgs.length : ℚ) * w0⌋).toNat)).2 }) ∧
      ((npChoice st.rng imgs.length ((⌊(imgs.length : ℚ) * w0⌋).toNat)).1).Nodup ∧
      (npIndex imgs (npChoice st.rng imgs.length
        ((⌊(imgs.length : ℚ) * w0⌋).toNat)).1).length
        = (⌊(imgs.length : ℚ) * w0⌋).toNat) ∧
    (w0 = 1 →
      processSource p w st c = .ok
        { all_images := st.all_images ++ [imgs],
          all_labels := st.all_labels ++ [labs],
          source_stats := st.source_stats ++
            [(c.name, ⟨imgs.length, get_class_distribution p labs⟩)],
          rng := st.rng }) := by
  have hlen : imgs.length ≠ 0 := fun h0 => hne (List.eq_nil_of_length_eq_zero h0)
  constructor
  · intro hlt
    have hsz : (⌊(imgs.length : ℚ) * w0⌋).toNat ≤ imgs.length := by
      rw [Int.toNat_le]
      have hle : (imgs.length : ℚ) * w0 ≤ ((imgs.length : ℤ) : ℚ) := by
        push_cast
        nlinarith [Nat.cast_nonneg (α := ℚ) imgs.length]
      have := Int.floor_le_floor hle
      rwa [Int.floor_intCast] at this
    have hmem : ∀ i ∈ (npChoice st.rng imgs.length
        ((⌊(imgs.length : ℚ) * w0⌋).toNat)).1, i < imgs.length :=
      fun i hi => npChoice_mem_lt _ _ _ i hi
    have hidxlen := npChoice_length st.rng imgs.length
      ((⌊(imgs.length : ℚ) * w0⌋).toNat) hsz
    refine ⟨?_, npChoice_nodup _ _ _, ?_⟩
    · simp only [processSource, hload, if_neg hlen, hw, Option.getD_some]
      rw [if_pos ⟨hlt, Nat.pos_of_ne_zero hlen⟩]
    · rw [npIndex_length_of_lt imgs _ hmem, hidxlen]
  · intro heq
    simp only [processSource, hload, if_neg hlen, hw, Option.getD_some, heq]
    rw [if_neg]
    intro hcon
    exact absurd hcon.1 (lt_irrefl 1)

/-- Witness for C5 at a concrete source: 2 images at weight 1/2 are
subsampled to exactly 1 = floor(2 * 1/2) image. -/
theorem c5_witness :
    loadSource paramsHalfEx worldTwoEx ⟨"fold", "folder_structure", "/data", some (1 / 2)⟩
      = some (.ok ([⟨9, 9, 3, "uint8", 50⟩, ⟨9, 9, 3, "uint8", 51⟩], [0, 0])) ∧
    (npIndex ([⟨9, 9, 3, "uint8", 50⟩, ⟨9, 9, 3, "uint8", 51⟩] : List Image)
      (npChoice (RngState.mk 0)
        ([⟨9, 9, 3, "uint8", 50⟩, ⟨9, 9, 3, "uint8", 51⟩] : List Image).length
        ((⌊(([⟨9, 9, 3, "uint8", 50⟩, ⟨9, 9, 3, "uint8", 51⟩] : List Image).length : ℚ)
          * (1 / 2)⌋).toNat)).1).length
      = (⌊(([⟨9, 9, 3, "uint8", 50⟩, ⟨9, 9, 3, "uint8", 51⟩] : List Image).length : ℚ)
          * (1 / 2)⌋).toNat :=
  ⟨by with_unfolding_all rfl,
    ((c5_weight_subsampling paramsHalfEx worldTwoEx (AggState.mk [] [] [] ⟨0⟩)
      ⟨"fold", "folder_structure", "/data", some (1 / 2)⟩
      [⟨9, 9, 3, "uint8", 50⟩, ⟨9, 9, 3, "uint8", 51⟩]
      [0, 0] (1 / 2)
      (by with_unfolding_all rfl) rfl (by norm_num) (by decide)).1 (by norm_num)).2.2⟩

/-! ### Claim C3: label-file manifest handling -/

theorem labelLinesLoop_ok_of_no_bad (fs : LabelFS) :
    ∀ lines : List String, (∀ line ∈ lines, lineBad line = false) →
      labelLinesLoop fs lines = .ok (lines.filterMap (linePair fs))
  | [], _ => rfl
  | line :: rest, h => by
    have hrec := labelLinesLoop_ok_of_no_bad fs rest
      fun l hl => h l (List.mem_cons_of_mem line hl)
    have hline := h line (List.mem_cons_self line rest)
    simp only [lineBad, Bool.and_eq_false_iff, decide_eq_false_iff_not,
      Option.isNone_eq_false_iff] at hline
    simp only [labelLinesLoop, List.filterMap_cons, linePair, hrec]
    by_cases h2 : (pySplitWs line.trim).length ≥ 2
    · rw [if_pos h2, if_pos h2]
      rcases hline with hbad | hsome
      · exact absurd h2 hbad
      · rcases Option.isSome_iff_exists.mp hsome with ⟨lab, hlab⟩
        rw [hlab]
        dsimp only
        cases fs.files ((pySplitWs line.trim).getD 0 "") with
        | none => rfl
        | some dec =>
          dsimp only
          cases cv2_imread dec with
          | none => rfl
          | some img => rfl
    · rw [if_neg h2, if_neg h2]

theorem labelLinesLoop_error_of_bad (fs : LabelFS) :
    ∀ lines : List String, (∃ line ∈ lines, lineBad line = true) →
      ∃ e, labelLinesLoop fs lines = .error e
  | [], h => absurd h (by simp)
  | line :: rest, h => by
    simp only [labelLinesLoop]
    by_cases hb : lineBad line = true
    · simp only [lineBad, Bool.and_eq_true, decide_eq_true_eq,
        Option.isNone_iff_eq_none] at hb
      rw [if_pos hb.1, hb.2]
      exact ⟨_, rfl⟩
    · have hrest : ∃ l ∈ rest, lineBad l = true := by
        rcases h with ⟨l, hl, hbad⟩
        rcases List.mem_cons.mp hl with rfl | hmem
        · exact absurd hbad hb
        · exact ⟨l, hmem, hbad⟩
      rcases labelLinesLoop_error_of_bad fs rest hrest with ⟨e, he⟩
      rw [he]
      by_cases h2 : (pySplitWs line.trim).length ≥ 2
      · rw [if_pos h2]
        rcases hp : pyParseInt ((pySplitWs line.trim).getD 1 "") with _ | lab
        · have hlb : lineBad line = true := by
            simp only [lineBad, hp, Option.isNone_none, Bool.and_true]
            exact decide_eq_true h2
          exact absurd hlb hb
        · simp only [hp]
          cases fs.files ((pySplitWs line.trim).getD 0 "") with
          | none => exact ⟨e, rfl⟩
          | some dec =>
            dsimp only
            cases cv2_imread dec with
            | none => exact ⟨e, rfl⟩
            | some img => exact ⟨e, rfl⟩
      · rw [if_neg h2]
        exact ⟨e, rfl⟩

theorem labelLinesLoop_ok_inv (fs : LabelFS) :
    ∀ (lines : List String) (ps : List (Image × Int)),
      labelLinesLoop fs lines = .ok ps → ps = lines.filterMap (linePair fs) := by
  intro lines ps hok
  by_cases hbad : ∃ line ∈ lines, lineBad line = true
  · rcases labelLinesLoop_error_of_bad fs lines hbad with ⟨e, he⟩
    rw [he] at hok
    exact absurd hok (by simp)
  · push_neg at hbad
    have hone : ∀ line ∈ lines, lineBad line = false := by
      intro l hl
      have := hbad l hl
      simpa using this
    rw [labelLinesLoop_ok_of_no_bad fs lines hone] at hok
    exact (Except.ok.inj hok).symm

/-- C3 counterexample: a manifest line with two tokens whose second token is
not integer-parseable makes the loader raise (the unguarded `int(parts[1])`)
instead of skipping the line, refuting "any malformed manifest line is
skipped and never aborts the run". -/
theorem c3_counterexample :
    load_label_file_dataset labelBadEx =
      .error "invalid literal for int with base 10: abc" := by
  with_unfolding_all rfl

/-- C3 (amended): a pair is added exactly for manifest lines with at least 2
tokens, an integer-parseable second token and an existing, decodable image
file; a missing `labels.txt` or `images/` yields the empty pair; a line with
fewer than 2 tokens (or a missing/undecodable image) is skipped; but a line
with at least 2 tokens whose second token is not integer-parseable raises
`ValueError` and aborts the load. -/
theorem c3_label_file_amended (fs : LabelFS) :
    ((fs.hasLabelFile && fs.hasImagesDir) = false →
      load_label_file_dataset fs = .ok ([], [])) ∧
    ((fs.hasLabelFile && fs.hasImagesDir) = true →
      (∀ line ∈ fs.lines, lineBad line = false) →
      load_label_file_dataset fs =
        .ok ((manifestPairs fs).map Prod.fst, (manifestPairs fs).map Prod.snd)) ∧
    ((fs.hasLabelFile && fs.hasImagesDir) = true →
      (∃ line ∈ fs.lines, lineBad line = true) →
      ∃ e, load_label_file_dataset fs = .error e) ∧
    (∀ ps, load_label_file_dataset fs = .ok ps →
      ps = ((manifestPairs fs).map Prod.fst, (manifestPairs fs).map Prod.snd)
        ∨ ps = ([], [])) := by
  refine ⟨?_, ?_, ?_, ?_⟩
  · intro hflag
    simp [load_label_file_dataset, hflag]
  · intro hflag hgood
    simp only [load_label_file_dataset, hflag, if_pos]
    rw [labelLinesLoop_ok_of_no_bad fs fs.lines hgood]
    rfl
  · intro hflag hbad
    rcases labelLinesLoop_error_of_bad fs fs.lines hbad with ⟨e, he⟩
    refine ⟨e, ?_⟩
    simp only [load_label_file_dataset, hflag, if_pos]
    rw [he]
  · intro ps hok
    unfold load_label_file_dataset at hok
    by_cases hflag : (fs.hasLabelFile && fs.hasImagesDir) = true
    · rw [if_pos hflag] at hok
      rcases hloop : labelLinesLoop fs fs.lines with e | pairs
      · rw [hloop] at hok
        exact absurd hok (by simp)
      · rw [hloop] at hok
        left
        have := labelLinesLoop_ok_inv fs fs.lines pairs hloop
        subst this
        exact (Except.ok.inj hok).symm
    · rw [if_neg hflag] at hok
      right
      exact (Except.ok.inj hok).symm

/-- Witness for C3's amended theorem on a concrete manifest: the good lines
contribute their pairs, the line with the missing image and the 1-token line
are skipped, and no error is raised. -/
theorem c3_witness :
    (labelGoodEx.hasLabelFile && labelGoodEx.hasImagesDir) = true ∧
    load_label_file_dataset labelGoodEx =
      .ok ([⟨9, 9, 3, "uint8", 60⟩, ⟨9, 9, 3, "uint8", 60⟩], [1, 0]) := by
  constructor
  · rfl
  · have h := (c3_label_file_amended labelGoodEx).2.1 rfl
      (by with_unfolding_all decide)
    rw [h]
    with_unfolding_all rfl

/-! ### Claim C1: image/label sequences stay aligned at every stage -/

theorem except_bind_ok {α β ε : Type} (a : α) (f : α → Except ε β) :
    (Except.ok (ε := ε) a >>= f) = f a := rfl

theorem load_builtin_length (p : Params) (mn : Mnist) (name : String)
    (h1 : mn.xtrain.length = mn.ytrain.length)
    (h2 : mn.xtest.length = mn.ytest.length) :
    (load_builtin_dataset p mn name).1.length = (load_builtin_dataset p mn name).2.length := by
  unfold load_builtin_dataset
  by_cases hn : name.toLower = "mnist"
  · rw [if_pos hn]
    simp [h1, h2]
  · rw [if_neg hn]
    rfl

theorem load_folder_length (p : Params) (fs : FolderFS) :
    (load_folder_structure p fs).1.length = (load_folder_structure p fs).2.length := by
  unfold load_folder_structure
  by_cases hr : fs.rootExists
  · rw [if_pos hr]
    simp
  · rw [if_neg hr]
    rfl

theorem load_label_length (fs : LabelFS) (ps : List Image × List Int)
    (h : load_label_file_dataset fs = .ok ps) : ps.1.length = ps.2.length := by
  rcases (c3_label_file_amended fs).2.2.2 ps h with hps | hps
  · rw [hps]
    simp
  · rw [hps]
    rfl

theorem loadSource_length (p : Params) (w : World) (c : SourceConfig)
    (imgs : List Image) (labs : List Int)
    (h1 : w.mnist.xtrain.length = w.mnist.ytrain.length)
    (h2 : w.mnist.xtest.length = w.mnist.ytest.length)
    (h : loadSource p w c = some (.ok (imgs, labs))) : imgs.length = labs.length := by
  unfold loadSource at h
  by_cases hb : c.type = "builtin"
  · rw [if_pos hb] at h
    have := Option.some.inj h
    have h3 := load_builtin_length p w.mnist c.name h1 h2
    rw [show load_builtin_dataset p w.mnist c.name = (imgs, labs) from
      Except.ok.inj this] at h3
    exact h3
  · rw [if_neg hb] at h
    by_cases hf : c.type = "folder_structure"
    · rw [if_pos hf] at h
      have := Except.ok.inj (Option.some.inj h)
      have h3 := load_folder_length p (w.folders c.path)
      rw [show load_folder_structure p (w.folders c.path) = (imgs, labs) from this] at h3
      exact h3
    · rw [if_neg hf] at h
      by_cases hl : c.type = "label_file"
      · rw [if_pos hl] at h
        exact load_label_length (w.labelfs c.path) (imgs, labs) (Option.some.inj h)
      · rw [if_neg hl] at h
        exact absurd h (by simp)

theorem processSource_len_inv (p : Params) (w : World) (st st' : AggState)
    (c : SourceConfig)
    (h1 : w.mnist.xtrain.length = w.mnist.ytrain.length)
    (h2 : w.mnist.xtest.length = w.mnist.ytest.length)
    (hinv : st.all_images.map List.length = st.all_labels.map List.length)
    (h : processSource p w st c = .ok st') :
    st'.all_images.map List.length = st'.all_labels.map List.length := by
  unfold processSource at h
  rcases hload : loadSource p w c with _ | r
  · rw [hload] at h
    rw [← Except.ok.inj h]
    exact hinv
  · rw [hload] at h
    rcases r with e | pair
    · exact absurd h (by simp)
    · rcases pair with ⟨imgs, labs⟩
      dsimp only at h
      have hlen : imgs.length = labs.length :=
        loadSource_length p w c imgs labs h1 h2 hload
      by_cases hz : imgs.length = 0
      · rw [if_pos hz] at h
        rw [← Except.ok.inj h]
        exact hinv
      · rw [if_neg hz] at h
        by_cases hw : (c.weight.getD 1) < 1 ∧ imgs.length > 0
        · rw [if_pos hw] at h
          rw [← Except.ok.inj h]
          simp only [List.map_append, List.map_cons, List.map_nil]
          rw [hinv, npIndex_length_congr imgs labs _ hlen]
        · rw [if_neg hw] at h
          rw [← Except.ok.inj h]
          simp only [List.map_append, List.map_cons, List.map_nil]
          rw [hinv, hlen]

theorem agg_fold_len_inv (p : Params) (w : World)
    (h1 : w.mnist.xtrain.length = w.mnist.ytrain.length)
    (h2 : w.mnist.xtest.length = w.mnist.ytest.length) :
    ∀ (l : List SourceConfig) (st st' : AggState),
      l.foldlM (processSource p w) st = .ok st' →
      st.all_images.map List.length = st.all_labels.map List.length →
      st'.all_images.map List.length = st'.all_labels.map List.length
  | [], st, st', hfold, hinv => by
    rw [← Except.ok.inj hfold]
    exact hinv
  | c :: cs, st, st', hfold, hinv => by
    rw [List.foldlM_cons] at hfold
    rcases hp : processSource p w st c with e | st1
    · rw [hp] at hfold
      exact Except.noConfusion hfold
    · rw [hp] at hfold
      exact agg_fold_len_inv p w h1 h2 cs st1 st' hfold
        (processSource_len_inv p w st st1 c h1 h2 hinv hp)

theorem np_concat_ok_eq (batches : List (List Image)) (ci : List Image)
    (h : np_concatenate_images batches = .ok ci) : ci = batches.flatten := by
  unfold np_concatenate_images at h
  rcases hf : batches.flatten with _ | ⟨x, xs⟩
  · rw [hf] at h
    dsimp only at h
    exact (Except.ok.inj h).symm
  · rw [hf] at h
    dsimp only at h
    by_cases hall : (xs.all fun i => decide (shapeOf i = shapeOf x)) = true
    · rw [if_pos hall] at h
      exact (Except.ok.inj h).symm
    · rw [if_neg hall] at h
      exact Except.noConfusion h

theorem load_all_sources_length (p : Params) (w : World) (g : RngState)
    (r : (List Image × List Int) × List (String × SourceStats) × RngState)
    (h1 : w.mnist.xtrain.length = w.mnist.ytrain.length)
    (h2 : w.mnist.xtest.length = w.mnist.ytest.length)
    (h : load_all_sources p w g = .ok r) : r.1.1.length = r.1.2.length := by
  unfold load_all_sources at h
  rcases hfold : p.DATA_SOURCES.foldlM (processSource p w) (AggState.mk [] [] [] g)
    with e | st
  · rw [hfold] at h
    exact Except.noConfusion h
  · rw [hfold] at h
    rw [except_bind_ok] at h
    have hinv := agg_fold_len_inv p w h1 h2 p.DATA_SOURCES _ st hfold rfl
    by_cases hemp : st.all_images.isEmpty
    · rw [if_pos hemp] at h
      have hr := Except.ok.inj h
      rw [← hr]
      exact load_builtin_length p w.mnist "mnist" h1 h2
    · rw [if_neg hemp] at h
      rcases hci : np_concatenate_images st.all_images with e | ci
      · rw [hci] at h
        exact Except.noConfusion h
      · rw [hci] at h
        rw [except_bind_ok] at h
        have hr := Except.ok.inj h
        rw [← hr]
        have hc := np_concat_ok_eq st.all_images ci hci
        simp only [hc, List.length_flatten, hinv]

theorem tts_ok_shapes {α : Type} (X : List α) (y : List Int) (ts : Rat)
    (seed : Nat) (xtr xte : List α) (ytr yte : List Int)
    (h : train_test_split X y ts seed = .ok (xtr, xte, ytr, yte)) :
    X.length = y.length ∧
    ∃ tr te, stratifiedIndices y ts seed = .ok (tr, te) ∧
      xtr = npIndex X tr ∧ xte = npIndex X te ∧
      ytr = npIndex y tr ∧ yte = npIndex y te := by
  unfold train_test_split at h
  by_cases hlen : X.length = y.length
  · rw [if_pos hlen] at h
    rcases hsi : stratifiedIndices y ts seed with e | ⟨tr, te⟩
    · rw [hsi] at h
      exact absurd h (by simp)
    · rw [hsi] at h
      have heq := Except.ok.inj h
      refine ⟨hlen, tr, te, rfl, ?_, ?_, ?_, ?_⟩
      · exact (congrArg (fun q => q.1) heq).symm
      · exact (congrArg (fun q => q.2.1) heq).symm
      · exact (congrArg (fun q => q.2.2.1) heq).symm
      · exact (congrArg (fun q => q.2.2.2) heq).symm
  · rw [if_neg hlen] at h
    exact absurd h (by simp)

theorem tts_pair_lengths {α : Type} (X : List α) (y : List Int) (ts : Rat)
    (seed : Nat) (xtr xte : List α) (ytr yte : List Int)
    (h : train_test_split X y ts seed = .ok (xtr, xte, ytr, yte)) :
    xtr.length = ytr.length ∧ xte.length = yte.length := by
  rcases tts_ok_shapes X y ts seed xtr xte ytr yte h with
    ⟨hlen, tr, te, _, h1, h2, h3, h4⟩
  subst h1
  subst h2
  subst h3
  subst h4
  exact ⟨npIndex_length_congr X y tr hlen, npIndex_length_congr X y te hlen⟩

theorem get_data_splits_ok_shapes (p : Params) (w : World) (g : RngState)
    (tr va te : List Image × List Int)
    (h : get_data_splits p w g = .ok (tr, va, te)) :
    ∃ (corpus : List Image × List Int) (g1 : RngState),
      load_combined_dataset p w g = .ok (corpus, g1) ∧
      ∃ ts : Nat, ts = (⌊(corpus.1.length : ℚ) * p.TRAINING_PERCENTAGE⌋).toNat ∧
      ∃ xtv : List Image, ∃ ytv : List Int,
        train_test_split (corpus.1.take ts) (corpus.2.take ts) (1 / 5) p.SHUFFLE_SEED
          = .ok (xtv, te.1, ytv, te.2) ∧
        train_test_split xtv ytv p.VALIDATION_SPLIT p.SHUFFLE_SEED
          = .ok (tr.1, va.1, tr.2, va.2) := by
  unfold get_data_splits at h
  rcases hlc : load_combined_dataset p w g with e | ⟨corpus, g1⟩
  · rw [hlc] at h
    exact Except.noConfusion h
  · rw [hlc] at h
    rw [except_bind_ok] at h
    dsimp only at h
    rcases h1 : train_test_split
        (corpus.1.take ((⌊(corpus.1.length : ℚ) * p.TRAINING_PERCENTAGE⌋).toNat))
        (corpus.2.take ((⌊(corpus.1.length : ℚ) * p.TRAINING_PERCENTAGE⌋).toNat))
        (1 / 5) p.SHUFFLE_SEED with e | ⟨xtv, xte, ytv, yte⟩
    · rw [h1] at h
      exact Except.noConfusion h
    · rw [h1] at h
      rw [except_bind_ok] at h
      dsimp only at h
      rcases h2 : train_test_split xtv ytv p.VALIDATION_SPLIT p.SHUFFLE_SEED
        with e | ⟨xtr, xva, ytr, yva⟩
      · rw [h2] at h
        exact Except.noConfusion h
      · rw [h2] at h
        rw [except_bind_ok] at h
        dsimp only at h
        have hr := Except.ok.inj h
        have h3 : te = (xte, yte) := (congrArg (fun q => q.2.2) hr).symm
        have h4 : tr = (xtr, ytr) := (congrArg (fun q => q.1) hr).symm
        have h5 : va = (xva, yva) := (congrArg (fun q => q.2.1) hr).symm
        refine ⟨corpus, g1, rfl, _, rfl, xtv, ytv, ?_, ?_⟩
        · rw [h1, h3]
        · rw [h2, h4, h5]

theorem zip_take_eq {α β : Type} :
    ∀ (xs : List α) (ys : List β) (n : Nat),
      (xs.take n).zip (ys.take n) = (xs.zip ys).take n
  | [], _, _ => by simp
  | _ :: _, [], _ => by simp
  | x :: xs, y :: ys, 0 => rfl
  | x :: xs, y :: ys, n + 1 => by
    simp only [List.take_succ_cons, List.zip_cons_cons]
    rw [zip_take_eq xs ys n]

theorem zip_mem_npIndex {α β : Type} (xs : List α) (ys : List β)
    (idx : List Nat) (h : xs.length = ys.length) (pr : α × β)
    (hmem : pr ∈ (npIndex xs idx).zip (npIndex ys idx)) : pr ∈ xs.zip ys := by
  rw [← npIndex_zip xs ys idx h] at hmem
  exact npIndex_mem _ idx pr hmem

/-- C1: the image sequence and the label sequence have equal length after
every stage — each source reader, weighted subsampling, aggregation and
concatenation, shuffling, truncation, and each of the three split
partitions — and each of these transformations maps index-aligned
(image, label) pairs to input (image, label) pairs, never re-pairing. -/
theorem c1_length_pairing_invariant (p : Params) (w : World) (g : RngState)
    (hm1 : w.mnist.xtrain.length = w.mnist.ytrain.length)
    (hm2 : w.mnist.xtest.length = w.mnist.ytest.length) :
    (∀ name, (load_builtin_dataset p w.mnist name).1.length
      = (load_builtin_dataset p w.mnist name).2.length) ∧
    (∀ path, (load_folder_structure p (w.folders path)).1.length
      = (load_folder_structure p (w.folders path)).2.length) ∧
    (∀ path ps, load_label_file_dataset (w.labelfs path) = .ok ps →
      ps.1.length = ps.2.length) ∧
    (∀ (xs : List Image) (ys : List Int) (idx : List Nat),
      xs.length = ys.length →
      (npIndex xs idx).length = (npIndex ys idx).length ∧
      ∀ pr ∈ (npIndex xs idx).zip (npIndex ys idx), pr ∈ xs.zip ys) ∧
    (∀ r, load_all_sources p w g = .ok r → r.1.1.length = r.1.2.length) ∧
    (∀ (xs : List Image) (ys : List Int) (seed : Nat) (g2 : RngState),
      xs.length = ys.length →
      (shuffle_dataset xs ys seed g2).1.1.length
        = (shuffle_dataset xs ys seed g2).1.2.length ∧
      ∀ pr ∈ ((shuffle_dataset xs ys seed g2).1.1).zip
          ((shuffle_dataset xs ys seed g2).1.2), pr ∈ xs.zip ys) ∧
    (∀ (xs : List Image) (ys : List Int) (n : Nat), xs.length = ys.length →
      (xs.take n).length = (ys.take n).length ∧
      ∀ pr ∈ (xs.take n).zip (ys.take n), pr ∈ xs.zip ys) ∧
    (∀ tr va te, get_data_splits p w g = .ok (tr, va, te) →
      (tr.1.length = tr.2.length ∧ va.1.length = va.2.length ∧
        te.1.length = te.2.length) ∧
      ∃ corpus g1, load_combined_dataset p w g = .ok (corpus, g1) ∧
        (∀ pr ∈ tr.1.zip tr.2, pr ∈ corpus.1.zip corpus.2) ∧
        (∀ pr ∈ va.1.zip va.2, pr ∈ corpus.1.zip corpus.2) ∧
        (∀ pr ∈ te.1.zip te.2, pr ∈ corpus.1.zip corpus.2)) := by
  refine ⟨fun name => load_builtin_length p w.mnist name hm1 hm2,
    fun path => load_folder_length p (w.folders path),
    fun path ps h => load_label_length (w.labelfs path) ps h,
    fun xs ys idx h => ⟨npIndex_length_congr xs ys idx h,
      fun pr hpr => zip_mem_npIndex xs ys idx h pr hpr⟩,
    fun r h => load_all_sources_length p w g r hm1 hm2 h,
    fun xs ys seed g2 h => ⟨npIndex_length_congr xs ys _ h,
      fun pr hpr => zip_mem_npIndex xs ys _ h pr hpr⟩,
    fun xs ys n h => ⟨by simp [List.length_take, h],
      fun pr hpr => by
        rw [zip_take_eq xs ys n] at hpr
        exact List.mem_of_mem_take hpr⟩,
    ?_⟩
  intro tr va te h
  rcases get_data_splits_ok_shapes p w g tr va te h with
    ⟨corpus, g1, hlc, ts, hts, xtv, ytv, h1, h2⟩
  rcases tts_ok_shapes _ _ _ _ _ _ _ _ h1 with
    ⟨hlen1, tr1, te1, _, hxtv, hxte, hytv, hyte⟩
  rcases tts_ok_shapes _ _ _ _ _ _ _ _ h2 with
    ⟨hlen2, tr2, te2, _, hxtr, hxva, hytr, hyva⟩
  have htrunc : ∀ pr : Image × Int, pr ∈ (corpus.1.take ts).zip (corpus.2.take ts) →
      pr ∈ corpus.1.zip corpus.2 := fun pr hpr => by
    rw [zip_take_eq] at hpr
    exact List.mem_of_mem_take hpr
  have hmemtv : ∀ pr : Image × Int, pr ∈ xtv.zip ytv →
      pr ∈ corpus.1.zip corpus.2 := fun pr hpr => by
    rw [hxtv, hytv] at hpr
    exact htrunc pr (zip_mem_npIndex _ _ tr1 hlen1 pr hpr)
  constructor
  · refine ⟨?_, ?_, ?_⟩
    · rw [hxtr, hytr]
      exact npIndex_length_congr xtv ytv tr2 hlen2
    · rw [hxva, hyva]
      exact npIndex_length_congr xtv ytv te2 hlen2
    · rw [hxte, hyte]
      exact npIndex_length_congr _ _ te1 hlen1
  · refine ⟨corpus, g1, hlc, ?_, ?_, ?_⟩
    · intro pr hpr
      rw [hxtr, hytr] at hpr
      exact hmemtv pr (zip_mem_npIndex xtv ytv tr2 hlen2 pr hpr)
    · intro pr hpr
      rw [hxva, hyva] at hpr
      exact hmemtv pr (zip_mem_npIndex xtv ytv te2 hlen2 pr hpr)
    · intro pr hpr
      rw [hxte, hyte] at hpr
      exact htrunc pr (zip_mem_npIndex _ _ te1 hlen1 pr hpr)

/-- Witness for C1 at a concrete world: the folder reader returns equally
long image and label sequences. -/
theorem c1_witness :
    (load_folder_structure paramsTenEx (worldTenEx.folders "/d")).1.length
      = (load_folder_structure paramsTenEx (worldTenEx.folders "/d")).2.length :=
  (c1_length_pairing_invariant paramsTenEx worldTenEx ⟨0⟩ rfl rfl).2.1 "/d"

/-! ### Claim C4: shape and dtype of the combined corpus -/

theorem load_builtin_dtype_shape (p : Params) (mn : Mnist) (name : String) :
    (∀ img ∈ (load_builtin_dataset p mn name).1, img.dtype = "uint8") ∧
    (∀ img ∈ (load_builtin_dataset p mn name).1,
      img.channels = if p.USE_GRAYSCALE then 1 else 3) ∧
    (∀ a ∈ (load_builtin_dataset p mn name).1,
      ∀ b ∈ (load_builtin_dataset p mn name).1, shapeOf a = shapeOf b) := by
  unfold load_builtin_dataset
  by_cases hn : name.toLower = "mnist"
  · rw [if_pos hn]
    refine ⟨?_, ?_, ?_⟩
    · intro img hmem
      rcases List.mem_map.mp hmem with ⟨d, _, rfl⟩
      unfold mnistImage
      by_cases hg : p.USE_GRAYSCALE <;> simp [hg]
    · intro img hmem
      rcases List.mem_map.mp hmem with ⟨d, _, rfl⟩
      unfold mnistImage
      by_cases hg : p.USE_GRAYSCALE <;> simp [hg]
    · intro a ha b hb
      rcases List.mem_map.mp ha with ⟨d1, _, rfl⟩
      rcases List.mem_map.mp hb with ⟨d2, _, rfl⟩
      unfold mnistImage shapeOf
      by_cases hg : p.USE_GRAYSCALE <;> simp [hg]
  · rw [if_neg hn]
    exact ⟨fun img h => absurd h (by simp), fun img h => absurd h (by simp),
      fun a h => absurd h (by simp)⟩

theorem load_folder_img (p : Params) (fs : FolderFS) (img : Image)
    (h : img ∈ (load_folder_structure p fs).1) :
    img.dtype = "uint8" ∧ img.channels = 3 := by
  unfold load_folder_structure at h
  by_cases hr : fs.rootExists
  · rw [if_pos hr] at h
    simp only [List.map_map] at h
    rcases List.mem_map.mp h with ⟨pr, hpr, rfl⟩
    rcases List.mem_flatMap.mp hpr with ⟨cls, _, hmem⟩
    rcases List.mem_map.mp hmem with ⟨img0, himg0, rfl⟩
    unfold folderClassImages at himg0
    rcases hdir : fs.classDirs cls with _ | files
    · rw [hdir] at himg0
      exact absurd himg0 (by simp)
    · rw [hdir] at himg0
      rcases List.mem_filterMap.mp himg0 with ⟨fe, _, hfe⟩
      by_cases hext : hasImageExt fe.name
      · rw [if_pos hext] at hfe
        unfold cv2_imread at hfe
        rcases Option.map_eq_some'.mp hfe with ⟨t, hct, rfl⟩
        exact ⟨rfl, rfl⟩
      · rw [if_neg hext] at hfe
        exact absurd hfe (by simp)
  · rw [if_neg hr] at h
    exact absurd h (by simp)

theorem load_label_img (fs : LabelFS) (ps : List Image × List Int) (img : Image)
    (hok : load_label_file_dataset fs = .ok ps) (h : img ∈ ps.1) :
    img.dtype = "uint8" ∧ img.channels = 3 := by
  rcases (c3_label_file_amended fs).2.2.2 ps hok with hps | hps
  · rw [hps] at h
    simp only at h
    rcases List.mem_map.mp h with ⟨pr, hpr, rfl⟩
    rcases List.mem_filterMap.mp hpr with ⟨line, _, hline⟩
    unfold linePair at hline
    by_cases h2 : (pySplitWs line.trim).length ≥ 2
    · rw [if_pos h2] at hline
      rcases hp : pyParseInt ((pySplitWs line.trim).getD 1 "") with _ | lab
      · rw [hp] at hline
        exact absurd hline (by simp)
      · rw [hp] at hline
        dsimp only at hline
        rcases hfl : fs.files ((pySplitWs line.trim).getD 0 "") with _ | dec
        · rw [hfl] at hline
          exact absurd hline (by simp)
        · rw [hfl] at hline
          dsimp only at hline
          unfold cv2_imread at hline
          rcases Option.map_eq_some'.mp hline with ⟨img1, himg1, rfl⟩
          rcases Option.map_eq_some'.mp himg1 with ⟨t, hct, rfl⟩
          exact ⟨rfl, rfl⟩
    · rw [if_neg h2] at hline
      exact absurd hline (by simp)
  · rw [hps] at h
    exact absurd h (by simp)

theorem loadSource_img (p : Params) (w : World) (c : SourceConfig)
    (imgs : List Image) (labs : List Int) (img : Image)
    (h : loadSource p w c = some (.ok (imgs, labs))) (hmem : img ∈ imgs) :
    img.dtype = "uint8" := by
  unfold loadSource at h
  by_cases hb : c.type = "builtin"
  · rw [if_pos hb] at h
    have heq := Except.ok.inj (Option.some.inj h)
    have := (load_builtin_dtype_shape p w.mnist c.name).1 img
    rw [heq] at this
    exact this hmem
  · rw [if_neg hb] at h
    by_cases hf : c.type = "folder_structure"
    · rw [if_pos hf] at h
      have heq := Except.ok.inj (Option.some.inj h)
      have := load_folder_img p (w.folders c.path) img
      rw [heq] at this
      exact (this hmem).1
    · rw [if_neg hf] at h
      by_cases hl : c.type = "label_file"
      · rw [if_pos hl] at h
        exact (load_label_img (w.labelfs c.path) (imgs, labs) img
          (Option.some.inj h) hmem).1
      · rw [if_neg hl] at h
        exact absurd h (by simp)

theorem processSource_dtype_inv (p : Params) (w : World) (st st' : AggState)
    (c : SourceConfig)
    (hinv : ∀ img ∈ st.all_images.flatten, img.dtype = "uint8")
    (h : processSource p w st c = .ok st') :
    ∀ img ∈ st'.all_images.flatten, img.dtype = "uint8" := by
  unfold processSource at h
  rcases hload : loadSource p w c with _ | r
  · rw [hload] at h
    rw [← Except.ok.inj h]
    exact hinv
  · rw [hload] at h
    rcases r with e | pair
    · exact absurd h (by simp)
    · rcases pair with ⟨imgs, labs⟩
      dsimp only at h
      by_cases hz : imgs.length = 0
      · rw [if_pos hz] at h
        rw [← Except.ok.inj h]
        exact hinv
      · rw [if_neg hz] at h
        by_cases hw : (c.weight.getD 1) < 1 ∧ imgs.length > 0
        · rw [if_pos hw] at h
          rw [← Except.ok.inj h]
          intro img hmem
          simp only [List.flatten_append, List.flatten_cons, List.flatten_nil,
            List.append_nil, List.mem_append] at hmem
          rcases hmem with hmem | hmem
          · exact hinv img hmem
          · exact loadSource_img p w c imgs labs img hload (npIndex_mem imgs _ img hmem)
        · rw [if_neg hw] at h
          rw [← Except.ok.inj h]
          intro img hmem
          simp only [List.flatten_append, List.flatten_cons, List.flatten_nil,
            List.append_nil, List.mem_append] at hmem
          rcases hmem with hmem | hmem
          · exact hinv img hmem
          · exact loadSource_img p w c imgs labs img hload hmem

theorem agg_fold_dtype_inv (p : Params) (w : World) :
    ∀ (l : List SourceConfig) (st st' : AggState),
      l.foldlM (processSource p w) st = .ok st' →
      (∀ img ∈ st.all_images.flatten, img.dtype = "uint8") →
      ∀ img ∈ st'.all_images.flatten, img.dtype = "uint8"
  | [], st, st', hfold, hinv => by
    rw [← Except.ok.inj hfold]
    exact hinv
  | c :: cs, st, st', hfold, hinv => by
    rw [List.foldlM_cons] at hfold
    rcases hp : processSource p w st c with e | st1
    · rw [hp] at hfold
      exact Except.noConfusion hfold
    · rw [hp] at hfold
      exact agg_fold_dtype_inv p w cs st1 st' hfold
        (processSource_dtype_inv p w st st1 c hinv hp)

theorem np_concat_ok_shape (batches : List (List Image)) (ci : List Image)
    (h : np_concatenate_images batches = .ok ci) :
    ∀ a ∈ ci, ∀ b ∈ ci, shapeOf a = shapeOf b := by
  have hc := np_concat_ok_eq batches ci h
  unfold np_concatenate_images at h
  rcases hf : batches.flatten with _ | ⟨x, xs⟩
  · rw [hf] at hc
    rw [hc]
    intro a ha
    exact absurd ha (by simp)
  · rw [hf] at h hc
    dsimp only at h
    by_cases hall : (xs.all fun i => decide (shapeOf i = shapeOf x)) = true
    · have hsh : ∀ a ∈ ci, shapeOf a = shapeOf x := by
        intro a ha
        rw [hc] at ha
        rcases List.mem_cons.mp ha with rfl | ha
        · rfl
        · have := List.all_eq_true.mp hall a ha
          exact of_decide_eq_true this
      intro a ha b hb
      rw [hsh a ha, hsh b hb]
    · rw [if_neg hall] at h
      exact Except.noConfusion h

/-- C4 counterexample: with `USE_GRAYSCALE = True` and a single
folder-structure source, `load_all_sources` returns a corpus whose images
have channel-depth 3 (the cv2 decoder output), not the channel-depth 1 the
grayscale configuration would determine — refuting "channel-depth determined
by the grayscale configuration". -/
theorem c4_counterexample :
    paramsFolderEx.USE_GRAYSCALE = true ∧
    load_all_sources paramsFolderEx worldTwoEx ⟨0⟩ =
      .ok (([⟨9, 9, 3, "uint8", 50⟩, ⟨9, 9, 3, "uint8", 51⟩], [0, 0]),
        [("fold", ⟨2, [(0, 2)]⟩)], ⟨0⟩) ∧
    (Image.mk 9 9 3 "uint8" 50).channels ≠ 1 :=
  ⟨rfl, by with_unfolding_all rfl, by decide⟩

/-- C4 (amended): whenever `load_all_sources` returns a corpus, all its
images share one shape and the integer dtype uint8; but the channel-depth is
determined by the grayscale configuration only for builtin (and fallback)
images — images read from disk through cv2 (folder_structure and label_file
sources) always have channel-depth 3. -/
theorem c4_shape_dtype_amended (p : Params) (w : World) (g : RngState) :
    (∀ r, load_all_sources p w g = .ok r →
      (∀ img ∈ r.1.1, img.dtype = "uint8") ∧
      (∀ a ∈ r.1.1, ∀ b ∈ r.1.1, shapeOf a = shapeOf b)) ∧
    (∀ name img, img ∈ (load_builtin_dataset p w.mnist name).1 →
      img.channels = if p.USE_GRAYSCALE then 1 else 3) ∧
    (∀ path img, img ∈ (load_folder_structure p (w.folders path)).1 →
      img.channels = 3) ∧
    (∀ path ps img, load_label_file_dataset (w.labelfs path) = .ok ps →
      img ∈ ps.1 → img.channels = 3) := by
  refine ⟨?_, fun name img h => (load_builtin_dtype_shape p w.mnist name).2.1 img h,
    fun path img h => (load_folder_img p (w.folders path) img h).2,
    fun path ps img hok h => (load_label_img (w.labelfs path) ps img hok h).2⟩
  intro r h
  unfold load_all_sources at h
  rcases hfold : p.DATA_SOURCES.foldlM (processSource p w) (AggState.mk [] [] [] g)
    with e | st
  · rw [hfold] at h
    exact Except.noConfusion h
  · rw [hfold] at h
    rw [except_bind_ok] at h
    have hdt := agg_fold_dtype_inv p w p.DATA_SOURCES _ st hfold (by simp)
    by_cases hemp : st.all_images.isEmpty
    · rw [if_pos hemp] at h
      rw [← Except.ok.inj h]
      exact ⟨(load_builtin_dtype_shape p w.mnist "mnist").1,
        (load_builtin_dtype_shape p w.mnist "mnist").2.2⟩
    · rw [if_neg hemp] at h
      rcases hci : np_concatenate_images st.all_images with e | ci
      · rw [hci] at h
        exact Except.noConfusion h
      · rw [hci] at h
        rw [except_bind_ok] at h
        rw [← Except.ok.inj h]
        refine ⟨?_, np_concat_ok_shape st.all_images ci hci⟩
        intro img hmem
        rw [np_concat_ok_eq st.all_images ci hci] at hmem
        exact hdt img hmem

/-- Witness for C4's amended theorem at a concrete run: the corpus of the
concrete folder world is all-uint8. -/
theorem c4_witness :
    load_all_sources paramsFolderEx worldTwoEx ⟨0⟩ =
      .ok (([⟨9, 9, 3, "uint8", 50⟩, ⟨9, 9, 3, "uint8", 51⟩], [0, 0]),
        [("fold", ⟨2, [(0, 2)]⟩)], ⟨0⟩) ∧
    ∀ img ∈ ([⟨9, 9, 3, "uint8", 50⟩, ⟨9, 9, 3, "uint8", 51⟩] : List Image),
      img.dtype = "uint8" := by
  have hok : load_all_sources paramsFolderEx worldTwoEx ⟨0⟩ =
      .ok (([⟨9, 9, 3, "uint8", 50⟩, ⟨9, 9, 3, "uint8", 51⟩], [0, 0]),
        [("fold", ⟨2, [(0, 2)]⟩)], ⟨0⟩) := by
    with_unfolding_all rfl
  exact ⟨hok, fun img h =>
    ((c4_shape_dtype_amended paramsFolderEx worldTwoEx ⟨0⟩).1 _ hok).1 img h⟩

/-! ### Claims C8 and C9: fallback control flow of the aggregator -/

theorem processSource_no_error (p : Params) (w : World) (st : AggState)
    (c : SourceConfig) (h : ∀ e, loadSource p w c ≠ some (.error e)) :
    ∃ st', processSource p w st c = .ok st' := by
  unfold processSource
  rcases hload : loadSource p w c with _ | r
  · exact ⟨st, rfl⟩
  · rcases r with e | pair
    · exact absurd hload (h e)
    · rcases pair with ⟨imgs, labs⟩
      dsimp only
      by_cases hz : imgs.length = 0
      · rw [if_pos hz]
        exact ⟨st, rfl⟩
      · rw [if_neg hz]
        by_cases hw : (c.weight.getD 1) < 1 ∧ imgs.length > 0
        · rw [if_pos hw]
          exact ⟨_, rfl⟩
        · rw [if_neg hw]
          exact ⟨_, rfl⟩

theorem processSource_skip (p : Params) (w : World) (st : AggState)
    (c : SourceConfig) (hne : ∀ e, loadSource p w c ≠ some (.error e))
    (hnc : ¬ Contributes p w c) : processSource p w st c = .ok st := by
  unfold processSource
  rcases hload : loadSource p w c with _ | r
  · rfl
  · rcases r with e | pair
    · exact absurd hload (hne e)
    · rcases pair with ⟨imgs, labs⟩
      dsimp only
      by_cases hz : imgs.length = 0
      · rw [if_pos hz]
      · exact absurd ⟨imgs, labs, hload,
          fun hnil => hz (by rw [hnil]; rfl)⟩ hnc

theorem processSource_contrib_append (p : Params) (w : World) (st st' : AggState)
    (c : SourceConfig) (h : processSource p w st c = .ok st')
    (hc : Contributes p w c) :
    ∃ b, st'.all_images = st.all_images ++ [b] := by
  rcases hc with ⟨imgs, labs, hload, hne⟩
  unfold processSource at h
  rw [hload] at h
  dsimp only at h
  have hz : ¬ imgs.length = 0 := fun h0 => hne (List.eq_nil_of_length_eq_zero h0)
  rw [if_neg hz] at h
  by_cases hw : (c.weight.getD 1) < 1 ∧ imgs.length > 0
  · rw [if_pos hw] at h
    exact ⟨_, congrArg AggState.all_images (Except.ok.inj h).symm⟩
  · rw [if_neg hw] at h
    exact ⟨_, congrArg AggState.all_images (Except.ok.inj h).symm⟩

theorem processSource_images_grow (p : Params) (w : World) (st st' : AggState)
    (c : SourceConfig) (h : processSource p w st c = .ok st') :
    ∃ t, st'.all_images = st.all_images ++ t := by
  unfold processSource at h
  rcases hload : loadSource p w c with _ | r
  · rw [hload] at h
    exact ⟨[], by rw [← Except.ok.inj h, List.append_nil]⟩
  · rw [hload] at h
    rcases r with e | pair
    · exact absurd h (by simp)
    · rcases pair with ⟨imgs, labs⟩
      dsimp only at h
      by_cases hz : imgs.length = 0
      · rw [if_pos hz] at h
        exact ⟨[], by rw [← Except.ok.inj h, List.append_nil]⟩
      · rw [if_neg hz] at h
        by_cases hw : (c.weight.getD 1) < 1 ∧ imgs.length > 0
        · rw [if_pos hw] at h
          exact ⟨_, congrArg AggState.all_images (Except.ok.inj h).symm⟩
        · rw [if_neg hw] at h
          exact ⟨_, congrArg AggState.all_images (Except.ok.inj h).symm⟩

theorem agg_fold_images_grow (p : Params) (w : World) :
    ∀ (l : List SourceConfig) (st st' : AggState),
      l.foldlM (processSource p w) st = .ok st' →
      ∃ t, st'.all_images = st.all_images ++ t
  | [], st, st', hfold => ⟨[], by rw [← Except.ok.inj hfold, List.append_nil]⟩
  | c :: cs, st, st', hfold => by
    rw [List.foldlM_cons] at hfold
    rcases hp : processSource p w st c with e | st1
    · rw [hp] at hfold
      exact Except.noConfusion hfold
    · rw [hp] at hfold
      rcases agg_fold_images_grow p w cs st1 st' hfold with ⟨t2, ht2⟩
      rcases processSource_images_grow p w st st1 c hp with ⟨t1, ht1⟩
      exact ⟨t1 ++ t2, by rw [ht2, ht1, List.append_assoc]⟩

theorem agg_fold_ok_of_no_error (p : Params) (w : World) :
    ∀ (l : List SourceConfig) (st : AggState),
      (∀ c ∈ l, ∀ e, loadSource p w c ≠ some (.error e)) →
      ∃ st', l.foldlM (processSource p w) st = .ok st'
  | [], st, _ => ⟨st, rfl⟩
  | c :: cs, st, h => by
    rcases processSource_no_error p w st c
      (h c (List.mem_cons_self c cs)) with ⟨st1, hst1⟩
    rcases agg_fold_ok_of_no_error p w cs st1
      (fun c2 hc2 => h c2 (List.mem_cons_of_mem c hc2)) with ⟨st', hst'⟩
    refine ⟨st', ?_⟩
    rw [List.foldlM_cons, hst1]
    exact hst'

theorem agg_fold_skip_all (p : Params) (w : World) :
    ∀ (l : List SourceConfig) (st : AggState),
      (∀ c ∈ l, ∀ e, loadSource p w c ≠ some (.error e)) →
      (∀ c ∈ l, ¬ Contributes p w c) →
      l.foldlM (processSource p w) st = .ok st
  | [], st, _, _ => rfl
  | c :: cs, st, hne, hnc => by
    rw [List.foldlM_cons,
      processSource_skip p w st c (hne c (List.mem_cons_self c cs))
        (hnc c (List.mem_cons_self c cs))]
    exact agg_fold_skip_all p w cs st
      (fun c2 hc2 => hne c2 (List.mem_cons_of_mem c hc2))
      (fun c2 hc2 => hnc c2 (List.mem_cons_of_mem c hc2))

theorem agg_fold_contribution (p : Params) (w : World) :
    ∀ (l : List SourceConfig) (st st' : AggState),
      l.foldlM (processSource p w) st = .ok st' →
      (∃ c ∈ l, Contributes p w c) →
      st'.all_images ≠ []
  | [], st, st', _, hex => by
    rcases hex with ⟨c, hc, _⟩
    exact absurd hc (by simp)
  | c :: cs, st, st', hfold, hex => by
    rw [List.foldlM_cons] at hfold
    rcases hp : processSource p w st c with e | st1
    · rw [hp] at hfold
      exact Except.noConfusion hfold
    · rw [hp] at hfold
      by_cases hc : Contributes p w c
      · rcases processSource_contrib_append p w st st1 c hp hc with ⟨b, hb⟩
        rcases agg_fold_images_grow p w cs st1 st' hfold with ⟨t, ht⟩
        rw [ht, hb, List.append_assoc]
        simp
      · rcases hex with ⟨c2, hc2, hcon⟩
        rcases List.mem_cons.mp hc2 with rfl | hmem
        · exact absurd hcon hc
        · exact agg_fold_contribution p w cs st1 st' hfold ⟨c2, hmem, hcon⟩

/-- C8: when, after iterating all configured sources (none of whose readers
raises), zero sources contributed a batch, `load_all_sources` falls back to
the builtin MNIST corpus (with empty statistics and the random state
untouched); when at least one source contributed, the fallback is not taken
and the concatenation of the accumulated batches is returned. -/
theorem c8_mnist_fallback (p : Params) (w : World) (g : RngState)
    (hne : ∀ c ∈ p.DATA_SOURCES, ∀ e, loadSource p w c ≠ some (.error e)) :
    ((∀ c ∈ p.DATA_SOURCES, ¬ Contributes p w c) →
      load_all_sources p w g = .ok (load_mnist_fallback p w, [], g)) ∧
    ((∃ c ∈ p.DATA_SOURCES, Contributes p w c) →
      ∃ st, p.DATA_SOURCES.foldlM (processSource p w) (AggState.mk [] [] [] g)
          = .ok st ∧
        st.all_images ≠ [] ∧
        load_all_sources p w g = (np_concatenate_images st.all_images).map
          fun ci => ((ci, st.all_labels.flatten), st.source_stats, st.rng)) := by
  constructor
  · intro hnc
    unfold load_all_sources
    rw [agg_fold_skip_all p w p.DATA_SOURCES _ hne hnc, except_bind_ok]
    rfl
  · intro hex
    rcases agg_fold_ok_of_no_error p w p.DATA_SOURCES
      (AggState.mk [] [] [] g) hne with ⟨st, hst⟩
    have hnonempty := agg_fold_contribution p w p.DATA_SOURCES _ st hst hex
    refine ⟨st, hst, hnonempty, ?_⟩
    unfold load_all_sources
    rw [hst, except_bind_ok]
    have hemp : st.all_images.isEmpty = false := by
      rw [List.isEmpty_eq_false]
      exact hnonempty
    rw [hemp, if_neg Bool.false_ne_true]
    rcases np_concatenate_images st.all_images with e | ci
    · rfl
    · rfl

/-- Witness for C8 at a concrete configuration with a single unknown-type
source: nothing contributes, and the builtin corpus is substituted. -/
theorem c8_witness :
    load_all_sources paramsUnknownEx worldTwoEx ⟨0⟩ =
      .ok (load_mnist_fallback paramsUnknownEx worldTwoEx, [], ⟨0⟩) :=
  (c8_mnist_fallback paramsUnknownEx worldTwoEx ⟨0⟩
    (by intro c hc e; simp only [paramsUnknownEx] at hc;
        rcases List.mem_singleton.mp hc with rfl; intro hcon;
        exact Option.noConfusion (hcon.symm.trans (by with_unfolding_all rfl)))).1
    (by intro c hc; simp only [paramsUnknownEx] at hc;
        rcases List.mem_singleton.mp hc with rfl;
        rintro ⟨imgs, labs, hload, _⟩;
        exact Option.noConfusion ((by with_unfolding_all rfl :
          loadSource paramsUnknownEx worldTwoEx ⟨"x", "weird", "/p", none⟩ = none).symm.trans hload))

theorem get_class_distribution_nil (p : Params) :
    get_class_distribution p [] = [] := by
  unfold get_class_distribution
  simp [List.countP_nil]

/-- C9: a source that loads a nonempty batch but whose weight subsamples it
to `floor(count * weight) = 0` images is still recorded in the statistics
with count 0 and an empty class distribution, still appends its (empty)
batch to the accumulation list, and still counts as a contributing source:
the builtin MNIST fallback is not taken and the returned combined corpus is
empty. -/
theorem c9_zero_subsample_still_contributes (p : Params) (w : World)
    (g : RngState) (c : SourceConfig) (imgs : List Image) (labs : List Int)
    (w0 : Rat)
    (hsrc : p.DATA_SOURCES = [c])
    (hload : loadSource p w c = some (.ok (imgs, labs)))
    (hne : imgs ≠ [])
    (hw : c.weight = some w0) (hlt : w0 < 1)
    (hzero : (⌊(imgs.length : ℚ) * w0⌋).toNat = 0)
    (hmn : w.mnist.xtrain ≠ []) :
    Contributes p w c ∧
    (∃ g1, load_all_sources p w g = .ok (([], []), [(c.name, ⟨0, []⟩)], g1)) ∧
    ([] : List Image) ≠ (load_mnist_fallback p w).1 := by
  have hz : ¬ imgs.length = 0 := fun h0 => hne (List.eq_nil_of_length_eq_zero h0)
  have hstep : processSource p w (AggState.mk [] [] [] g) c =
      .ok (AggState.mk [[]] [[]] [(c.name, ⟨0, []⟩)]
        ((npChoice g imgs.length 0).2)) := by
    unfold processSource
    rw [hload]
    dsimp only
    rw [if_neg hz, hw]
    have hcond : (some w0).getD 1 < 1 ∧ imgs.length > 0 :=
      ⟨by simpa using hlt, Nat.pos_of_ne_zero hz⟩
    rw [if_pos hcond]
    simp only [Option.getD_some, hzero]
    have htake : (npChoice g imgs.length 0).1 = [] := by
      unfold npChoice
      simp
    rw [htake]
    simp [npIndex, get_class_distribution_nil]
  refine ⟨⟨imgs, labs, hload, hne⟩, ⟨(npChoice g imgs.length 0).2, ?_⟩, ?_⟩
  · unfold load_all_sources
    rw [hsrc]
    rw [show ([c].foldlM (processSource p w) (AggState.mk [] [] [] g)) =
      processSource p w (AggState.mk [] [] [] g) c >>= fun st =>
        ([] : List SourceConfig).foldlM (processSource p w) st from rfl]
    rw [hstep]
    rw [except_bind_ok]
    rw [show (([] : List SourceConfig).foldlM (processSource p w)
      (AggState.mk [[]] [[]] [(c.name, ⟨0, []⟩)] ((npChoice g imgs.length 0).2)))
      = .ok (AggState.mk [[]] [[]] [(c.name, ⟨0, []⟩)]
        ((npChoice g imgs.length 0).2)) from rfl]
    rw [except_bind_ok]
    rfl
  · intro hcon
    unfold load_mnist_fallback load_builtin_dataset at hcon
    rw [if_pos (by with_unfolding_all rfl : "mnist".toLower = "mnist")] at hcon
    have : (w.mnist.xtrain ++ w.mnist.xtest).map (mnistImage p.USE_GRAYSCALE) = [] :=
      hcon.symm
    rcases hx : w.mnist.xtrain with _ | ⟨a, rest⟩
    · exact hmn hx
    · rw [hx] at this
      simp at this

/-- Witness for C9 at a concrete source: 2 images at weight 1/4 are
subsampled to floor(2/4) = 0 images, yet the source is recorded with count 0
and the empty corpus - not the MNIST fallback - is returned. -/
theorem c9_witness :
    ∃ g1, load_all_sources paramsQuarterEx worldTwoEx ⟨0⟩ =
      .ok (([], []), [("fold", ⟨0, []⟩)], g1) :=
  (c9_zero_subsample_still_contributes paramsQuarterEx worldTwoEx ⟨0⟩
    ⟨"fold", "folder_structure", "/data", some (1 / 4)⟩
    [⟨9, 9, 3, "uint8", 50⟩, ⟨9, 9, 3, "uint8", 51⟩] [0, 0] (1 / 4)
    rfl (by with_unfolding_all rfl) (by decide) rfl (by norm_num)
    (by norm_num) (by decide)).2.1

/-! ### Claims C6 and C7: the stratified split model -/

theorem sum_le_of_zip_le : ∀ (a b : List Nat), a.length = b.length →
    (∀ pr ∈ a.zip b, pr.1 ≤ pr.2) → a.sum ≤ b.sum
  | [], [], _, _ => le_refl 0
  | [], _ :: _, h, _ => absurd h (by simp)
  | _ :: _, [], h, _ => absurd h (by simp)
  | x :: a, y :: b, h, hle => by
    simp only [List.sum_cons]
    have h1 := hle (x, y) (by simp)
    have h2 := sum_le_of_zip_le a b (by simpa using h)
      fun pr hpr => hle pr (List.mem_cons_of_mem _ hpr)
    omega

theorem zip_sub_sum : ∀ (a b : List Nat), a.length = b.length →
    (∀ pr ∈ a.zip b, pr.2 ≤ pr.1) →
    ((a.zip b).map fun q => q.1 - q.2).sum = a.sum - b.sum
  | [], [], _, _ => rfl
  | [], _ :: _, h, _ => absurd h (by simp)
  | _ :: _, [], h, _ => absurd h (by simp)
  | x :: a, y :: b, h, hle => by
    simp only [List.zip_cons_cons, List.map_cons, List.sum_cons]
    have h1 := hle (x, y) (by simp)
    have h2 := zip_sub_sum a b (by simpa using h)
      fun pr hpr => hle pr (List.mem_cons_of_mem _ hpr)
    have h3 := sum_le_of_zip_le b a (by simpa using h.symm)
      fun pr hpr => by
        have hswap : pr.swap ∈ a.zip b := by
          rw [← List.zip_swap]
          exact List.mem_map_of_mem Prod.swap hpr
        simpa using hle pr.swap (List.mem_cons_of_mem (x, y) hswap)
    omega

theorem sd_length : ∀ (k : Nat) (l : List (Nat × Nat)),
    k ≤ (l.map fun pr => pr.2 - pr.1).sum →
    (skDistribute k l).length = l.length
  | 0, l, _ => by simp [skDistribute]
  | k + 1, [], h => absurd h (by simp)
  | k + 1, (f, c) :: rest, h => by
    simp only [skDistribute, List.length_cons]
    rw [sd_length (k + 1 - min (k + 1) (c - f)) rest]
    simp only [List.map_cons, List.sum_cons] at h
    omega

theorem sd_sum : ∀ (k : Nat) (l : List (Nat × Nat)),
    k ≤ (l.map fun pr => pr.2 - pr.1).sum →
    (skDistribute k l).sum = (l.map Prod.fst).sum + k
  | 0, l, _ => by simp [skDistribute]
  | k + 1, [], h => absurd h (by simp)
  | k + 1, (f, c) :: rest, h => by
    simp only [List.map_cons, List.sum_cons] at h ⊢
    simp only [skDistribute, List.sum_cons]
    rw [sd_sum (k + 1 - min (k + 1) (c - f)) rest (by omega)]
    omega

theorem sd_le : ∀ (k : Nat) (l : List (Nat × Nat)),
    (∀ pr ∈ l, pr.1 ≤ pr.2) →
    ∀ pr2 ∈ (skDistribute k l).zip l, pr2.1 ≤ pr2.2.2
  | 0, l, hle => by
    intro pr2 hpr2
    simp only [skDistribute] at hpr2
    induction l with
    | nil => exact absurd hpr2 (by simp)
    | cons x rest ih =>
      simp only [List.map_cons, List.zip_cons_cons] at hpr2
      rcases List.mem_cons.mp hpr2 with rfl | hmem
      · exact hle x (by simp)
      · exact ih (fun pr h => hle pr (List.mem_cons_of_mem _ h)) hmem
  | k + 1, [], _ => by
    intro pr2 hpr2
    exact absurd hpr2 (by simp [skDistribute])
  | k + 1, (f, c) :: rest, hle => by
    intro pr2 hpr2
    simp only [skDistribute, List.zip_cons_cons] at hpr2
    rcases List.mem_cons.mp hpr2 with rfl | hmem
    · have := hle (f, c) (by simp)
      simp only
      omega
    · exact sd_le (k + 1 - min (k + 1) (c - f)) rest
        (fun pr h => hle pr (List.mem_cons_of_mem _ h)) pr2 hmem

theorem map_div_zip_le (n T : Nat) (hn : n ≤ T) :
    ∀ l : List Nat, ∀ pr ∈ (l.map fun c => c * n / T).zip l, pr.1 ≤ pr.2
  | [], pr, hpr => absurd hpr (by simp)
  | c :: l, pr, hpr => by
    simp only [List.map_cons, List.zip_cons_cons] at hpr
    rcases List.mem_cons.mp hpr with rfl | hmem
    · have h1 : c * n ≤ c * T := Nat.mul_le_mul_left c hn
      rcases Nat.eq_zero_or_pos T with rfl | hT
      · simp
      · calc c * n / T ≤ c * T / T := Nat.div_le_div_right h1
          _ = c := Nat.mul_div_cancel c hT
    · exact map_div_zip_le n T hn l pr hmem

theorem sum_map_div_le (n T : Nat) (hT : 0 < T) :
    ∀ l : List Nat, (l.map fun c => c * n / T).sum ≤ l.sum * n / T
  | [] => by simp
  | c :: l => by
    simp only [List.map_cons, List.sum_cons]
    have ih := sum_map_div_le n T hT l
    have h1 : c * n / T + l.sum * n / T ≤ (c * n + l.sum * n) / T := by
      rw [Nat.le_div_iff_mul_le hT, Nat.add_mul]
      exact Nat.add_le_add (Nat.div_mul_le_self _ _) (Nat.div_mul_le_self _ _)
    calc c * n / T + (l.map fun c => c * n / T).sum
        ≤ c * n / T + l.sum * n / T := Nat.add_le_add_left ih _
      _ ≤ (c * n + l.sum * n) / T := h1
      _ = (c + l.sum) * n / T := by rw [Nat.add_mul]

theorem zip_map_snd_mem {α β γ : Type} :
    ∀ (a : List α) (b : List β) (f : β → γ) (pr : α × γ),
      pr ∈ a.zip (b.map f) → ∃ q ∈ a.zip b, pr = (q.1, f q.2)
  | [], _, _, _, hpr => absurd hpr (by simp)
  | _ :: _, [], _, _, hpr => absurd hpr (by simp)
  | x :: a, y :: b, f, pr, hpr => by
    simp only [List.map_cons, List.zip_cons_cons] at hpr
    rcases List.mem_cons.mp hpr with rfl | hmem
    · exact ⟨(x, y), by simp⟩
    · rcases zip_map_snd_mem a b f pr hmem with ⟨q, hq, rfl⟩
      exact ⟨q, List.mem_cons_of_mem _ hq, rfl⟩

theorem am_facts (counts : List Nat) (n : Nat) (hT : 0 < counts.sum)
    (hn : n ≤ counts.sum) :
    (approxMode counts n).length = counts.length ∧
    (approxMode counts n).sum = n ∧
    (∀ pr ∈ (approxMode counts n).zip counts, pr.1 ≤ pr.2) := by
  have hfl : (counts.map fun c => c * n / counts.sum).length = counts.length :=
    List.length_map _ _
  have hfle : ∀ pr ∈ (counts.map fun c => c * n / counts.sum).zip counts,
      pr.1 ≤ pr.2 := map_div_zip_le n counts.sum hn counts
  have hfsum : (counts.map fun c => c * n / counts.sum).sum ≤ n := by
    have h1 := sum_map_div_le n counts.sum hT counts
    rwa [Nat.mul_div_cancel_left n hT] at h1
  have hgap : ((((counts.map fun c => c * n / counts.sum).zip counts)).map
      fun pr => pr.2 - pr.1).sum
      = counts.sum - (counts.map fun c => c * n / counts.sum).sum := by
    have hz := zip_sub_sum counts (counts.map fun c => c * n / counts.sum)
      (by rw [hfl]) (fun pr hpr => by
        have hswap : pr.swap ∈ (counts.map fun c => c * n / counts.sum).zip counts := by
          rw [← List.zip_swap]
          exact List.mem_map_of_mem Prod.swap hpr
        simpa using hfle pr.swap hswap)
    rw [← hz]
    have hmapeq : ((counts.zip (counts.map fun c => c * n / counts.sum)).map
        fun q => q.1 - q.2)
        = (((counts.map fun c => c * n / counts.sum).zip counts).map
          fun pr => pr.2 - pr.1) := by
      rw [← List.zip_swap counts (counts.map fun c => c * n / counts.sum),
        List.map_map]
      rfl
    rw [hmapeq]
  have hk : n - (counts.map fun c => c * n / counts.sum).sum ≤
      ((((counts.map fun c => c * n / counts.sum).zip counts)).map
        fun pr => pr.2 - pr.1).sum := by
    rw [hgap]
    omega
  refine ⟨?_, ?_, ?_⟩
  · unfold approxMode
    rw [sd_length _ _ hk, List.length_zip, hfl, Nat.min_self]
  · unfold approxMode
    rw [sd_sum _ _ hk]
    rw [List.map_fst_zip _ _ (by rw [hfl])]
    omega
  · intro pr hpr
    have hple := sd_le (n - (counts.map fun c => c * n / counts.sum).sum)
      ((counts.map fun c => c * n / counts.sum).zip counts) hfle
    have hpr2 : pr ∈ (skDistribute
        (n - (counts.map fun c => c * n / counts.sum).sum)
        ((counts.map fun c => c * n / counts.sum).zip counts)).zip
        (((counts.map fun c => c * n / counts.sum).zip counts).map Prod.snd) := by
      rw [List.map_snd_zip _ _ (by rw [hfl])]
      exact hpr
    rcases zip_map_snd_mem _ _ _ pr hpr2 with ⟨q, hq, rfl⟩
    exact hple q hq

theorem sd_zero : ∀ l : List (Nat × Nat), skDistribute 0 l = l.map Prod.fst
  | [] => rfl
  | ⟨f, c⟩ :: rest => rfl

theorem am_id (counts : List Nat) (n : Nat) (hsum : counts.sum = n)
    (hn : 0 < n) : approxMode counts n = counts := by
  have hmap : (counts.map fun c => c * n / counts.sum) = counts := by
    have hc : ∀ c ∈ counts, c * n / counts.sum = c := fun c _ => by
      rw [hsum]
      exact Nat.mul_div_cancel c hn
    rw [List.map_congr_left fun c hc2 => hc c hc2]
    exact List.map_id counts
  show skDistribute (n - (counts.map fun c => c * n / counts.sum).sum)
    ((counts.map fun c => c * n / counts.sum).zip counts) = counts
  rw [hmap, hsum, Nat.sub_self, sd_zero]
  exact List.map_fst_zip counts counts (le_refl _)

theorem mem_npUnique (y : List Int) (c : Int) : c ∈ npUnique y ↔ c ∈ y := by
  unfold npUnique
  rw [List.mem_dedup]
  exact (List.perm_insertionSort (fun a b => a ≤ b) y).mem_iff

theorem npUnique_nodup (y : List Int) : (npUnique y).Nodup :=
  List.nodup_dedup _

theorem classIndices_length (c : Int) :
    ∀ y : List Int, (classIndices y c).length = y.countP fun l => decide (l = c) := by
  intro y
  induction y using List.reverseRecOn with
  | nil => rfl
  | append_singleton y a ih =>
    unfold classIndices at ih ⊢
    rw [List.length_append, List.length_singleton, List.range_succ,
      List.filter_append, List.countP_append, List.length_append]
    have h1 : (List.range y.length).filter
        (fun i => decide ((y ++ [a]).getD i 0 = c))
        = (List.range y.length).filter (fun i => decide (y.getD i 0 = c)) := by
      apply List.filter_congr
      intro i hi
      rw [List.getD_append y [a] 0 i (List.mem_range.mp hi)]
    rw [h1, ih]
    have h2 : ([y.length].filter fun i => decide ((y ++ [a]).getD i 0 = c)).length
        = List.countP (fun l => decide (l = c)) [a] := by
      have hg : (y ++ [a]).getD y.length 0 = a := by
        rw [List.getD_eq_getElem?_getD, List.getElem?_append_right (le_refl _)]
        simp
      by_cases hac : a = c
      · simp [List.filter, List.countP, List.countP.go, hg, hac]
      · simp [List.filter, List.countP, List.countP.go, hg, hac]
    rw [h2]

theorem filter_of_excl {α : Type} (p q : α → Bool) (l : List α)
    (h : ∀ x ∈ l, q x = true → p x = false) :
    (l.filter fun x => !p x).filter q = l.filter q := by
  induction l with
  | nil => rfl
  | cons x l ih =>
    have ihl := ih fun x hx => h x (List.mem_cons_of_mem _ hx)
    by_cases hq : q x = true
    · have hp : p x = false := h x (List.mem_cons_self x l) hq
      simp [List.filter_cons, hp, hq, ihl]
    · have hq2 : q x = false := Bool.eq_false_iff.mpr hq
      by_cases hp : p x = true
      · simp [List.filter_cons, hp, hq2, ihl]
      · have hp2 : p x = false := Bool.eq_false_iff.mpr hp
        simp [List.filter_cons, hp2, hq2, ihl]

theorem classes_filter_partition :
    ∀ (cs : List Int) (y : List Int) (l : List Nat), cs.Nodup →
      (∀ i ∈ l, y.getD i 0 ∈ cs) →
      ((cs.map fun c => l.filter fun i => decide (y.getD i 0 = c)).flatten).Perm l
  | [], y, l, _, hcov => by
    have hl : l = [] := List.eq_nil_iff_forall_not_mem.mpr fun i hi =>
      absurd (hcov i hi) (by simp)
    rw [hl]
    rfl
  | c :: cs, y, l, hnd, hcov => by
    simp only [List.map_cons, List.flatten_cons]
    have hnotin : c ∉ cs := (List.nodup_cons.mp hnd).1
    have hA : ∀ c2 ∈ cs, (l.filter fun i => decide (y.getD i 0 = c2))
        = ((l.filter fun i => !(decide (y.getD i 0 = c))).filter
            fun i => decide (y.getD i 0 = c2)) := by
      intro c2 hc2
      rw [filter_of_excl (fun i => decide (y.getD i 0 = c))
        (fun i => decide (y.getD i 0 = c2)) l]
      intro x _ hq
      have : y.getD x 0 = c2 := of_decide_eq_true hq
      have hne : ¬ y.getD x 0 = c := fun hc => hnotin (by
        have hcc : c = c2 := hc.symm.trans this
        rw [hcc]
        exact hc2)
      exact decide_eq_false hne
    have hmape : (cs.map fun c2 => l.filter fun i => decide (y.getD i 0 = c2))
        = cs.map fun c2 => ((l.filter fun i => !(decide (y.getD i 0 = c))).filter
            fun i => decide (y.getD i 0 = c2)) :=
      List.map_congr_left hA
    rw [hmape]
    have hcov2 : ∀ i ∈ (l.filter fun i => !(decide (y.getD i 0 = c))),
        y.getD i 0 ∈ cs := by
      intro i hi
      rcases List.mem_filter.mp hi with ⟨hmem, hnp⟩
      have hne : ¬ y.getD i 0 = c := by
        intro hc
        rw [decide_eq_true hc] at hnp
        exact absurd hnp (by simp)
      rcases List.mem_cons.mp (hcov i hmem) with hc | hcs
      · exact absurd hc hne
      · exact hcs
    have ih := classes_filter_partition cs y
      (l.filter fun i => !(decide (y.getD i 0 = c)))
      (List.nodup_cons.mp hnd).2 hcov2
    exact ((ih.append_left (l.filter fun i => decide (y.getD i 0 = c))).trans
      (List.filter_append_perm _ l))

theorem strataDraw_perm (y : List Int) :
    ∀ (triples : List (Int × Nat × Nat)) (g : RngState),
      (∀ t ∈ triples, t.2.1 + t.2.2 = (classIndices y t.1).length) →
      ((strataDraw y g triples).1 ++ (strataDraw y g triples).2.1).Perm
        ((triples.map fun t => classIndices y t.1).flatten)
  | [], g, _ => by simp [strataDraw]
  | (c, ntr, nte) :: rest, g, h => by
    have hcnt : ntr + nte = (classIndices y c).length :=
      h (c, ntr, nte) (List.mem_cons_self _ rest)
    have hperm : ((permDrawFuel (classIndices y c).length g (classIndices y c)).1).Perm
        (classIndices y c) :=
      permDrawFuel_perm (classIndices y c).length g (classIndices y c) (le_refl _)
    have hlen : (permDrawFuel (classIndices y c).length g (classIndices y c)).1.length
        = (classIndices y c).length := hperm.length_eq
    set perm := (permDrawFuel (classIndices y c).length g (classIndices y c)).1 with hpe
    set g1 := (permDrawFuel (classIndices y c).length g (classIndices y c)).2 with hge
    have ih := strataDraw_perm y rest g1
      fun t ht => h t (List.mem_cons_of_mem _ ht)
    set tr := (strataDraw y g1 rest).1 with htre
    set te := (strataDraw y g1 rest).2.1 with htee
    have hdt : (perm.drop ntr).take nte = perm.drop ntr := by
      apply List.take_of_length_le
      rw [List.length_drop, hlen]
      omega
    have hshape : (strataDraw y g ((c, ntr, nte) :: rest)).1
        = perm.take ntr ++ tr ∧
        (strataDraw y g ((c, ntr, nte) :: rest)).2.1
        = (perm.drop ntr).take nte ++ te := by
      constructor <;> rfl
    rw [hshape.1, hshape.2, hdt]
    simp only [List.map_cons, List.flatten_cons]
    have hmid : (perm.take ntr ++ tr) ++ (perm.drop ntr ++ te)
        = perm.take ntr ++ ((tr ++ perm.drop ntr) ++ te) := by
      simp [List.append_assoc]
    rw [hmid]
    have hswap : ((tr ++ perm.drop ntr) ++ te).Perm ((perm.drop ntr ++ tr) ++ te) :=
      (List.perm_append_comm).append_right te
    have hstep : (perm.take ntr ++ ((tr ++ perm.drop ntr) ++ te)).Perm
        ((perm.take ntr ++ perm.drop ntr) ++ (tr ++ te)) := by
      refine (hswap.append_left (perm.take ntr)).trans ?_
      have he : perm.take ntr ++ ((perm.drop ntr ++ tr) ++ te)
          = (perm.take ntr ++ perm.drop ntr) ++ (tr ++ te) := by
        rw [List.append_assoc (perm.drop ntr) tr te,
          List.append_assoc (perm.take ntr) (perm.drop ntr) (tr ++ te)]
      rw [he]
    refine hstep.trans ?_
    rw [List.take_append_drop]
    exact List.Perm.append hperm ih

theorem triple_sum (f : Int → Nat) :
    ∀ (cs : List Int) (al : List Nat),
      (∀ pr ∈ al.zip (cs.map f), pr.1 ≤ pr.2) →
      ∀ t ∈ cs.zip (al.zip (((cs.map f).zip al).map fun q => q.1 - q.2)),
        t.2.1 + t.2.2 = f t.1
  | [], al, _, t, ht => absurd ht (by simp)
  | _ :: _, [], _, t, ht => absurd ht (by simp)
  | c :: cs, a :: al, hle, t, ht => by
    simp only [List.map_cons, List.zip_cons_cons] at ht
    rcases List.mem_cons.mp ht with rfl | hmem
    · have h1 : a ≤ f c := hle (a, f c) (by simp)
      simp only
      omega
    · exact triple_sum f cs al
        (fun pr hpr => hle pr (List.mem_cons_of_mem _ hpr)) t hmem

theorem getD_mem_of_lt (y : List Int) (i : Nat) (hi : i < y.length) :
    y.getD i 0 ∈ y := by
  rw [List.getD_eq_getElem?_getD, List.getElem?_eq_getElem hi]
  exact List.getElem_mem hi

theorem stratifiedIndices_perm (y : List Int) (ts : Rat) (seed : Nat)
    (tr te : List Nat) (h : stratifiedIndices y ts seed = .ok (tr, te)) :
    (tr ++ te).Perm (List.range y.length) := by
  unfold stratifiedIndices at h
  by_cases hC1 : (npUnique y).isEmpty = true
  · rw [if_pos hC1] at h
    exact Except.noConfusion h
  rw [if_neg hC1] at h
  by_cases hC2 : ((stratCounts y).any fun k => decide (k < 2)) = true
  · rw [if_pos hC2] at h
    exact Except.noConfusion h
  rw [if_neg hC2] at h
  by_cases hC3 : stratNTrain y ts < (npUnique y).length
  · rw [if_pos hC3] at h
    exact Except.noConfusion h
  rw [if_neg hC3] at h
  by_cases hC4 : stratNTest y ts < (npUnique y).length
  · rw [if_pos hC4] at h
    exact Except.noConfusion h
  rw [if_neg hC4] at h
  have heq := Except.ok.inj h
  have htr : tr = (strataDraw y (npSeed seed) (stratTriples y ts)).1 :=
    (congrArg Prod.fst heq).symm
  have hte : te = (strataDraw y (npSeed seed) (stratTriples y ts)).2.1 :=
    (congrArg Prod.snd heq).symm
  -- basic class facts
  have hne : npUnique y ≠ [] := by
    intro hnil
    rw [hnil] at hC1
    exact hC1 rfl
  have hk1 : 1 ≤ (npUnique y).length := List.length_pos.mpr hne
  have hcov : ∀ i ∈ List.range y.length, y.getD i 0 ∈ npUnique y := fun i hi =>
    (mem_npUnique y _).mpr (getD_mem_of_lt y i (List.mem_range.mp hi))
  have hpart : (((npUnique y).map fun c => classIndices y c).flatten).Perm
      (List.range y.length) :=
    classes_filter_partition (npUnique y) y (List.range y.length)
      (npUnique_nodup y) hcov
  -- counts and their sum
  have hcounts : stratCounts y = (npUnique y).map fun c => (classIndices y c).length := by
    unfold stratCounts
    exact List.map_congr_left fun c _ => (classIndices_length c y).symm
  have hcsum : (stratCounts y).sum = y.length := by
    rw [hcounts]
    have h1 : ((npUnique y).map fun c => (classIndices y c).length)
        = (((npUnique y).map fun c => classIndices y c).map List.length) := by
      rw [List.map_map]
      rfl
    rw [h1, ← List.length_flatten, hpart.length_eq, List.length_range]
  have hT : 0 < (stratCounts y).sum := by
    rw [hcsum]
    rcases List.exists_mem_of_ne_nil _ hne with ⟨c, hc⟩
    have hcy : c ∈ y := (mem_npUnique y c).mp hc
    exact List.length_pos.mpr fun hnil => by
      rw [hnil] at hcy
      exact absurd hcy (by simp)
  have hntr1 : (npUnique y).length ≤ stratNTrain y ts := Nat.le_of_not_lt hC3
  have hnte1 : (npUnique y).length ≤ stratNTest y ts := Nat.le_of_not_lt hC4
  have hnn : stratNTrain y ts + stratNTest y ts = y.length := by
    unfold stratNTrain at hntr1 ⊢
    omega
  have hntrle : stratNTrain y ts ≤ (stratCounts y).sum := by
    rw [hcsum]
    omega
  -- allocation facts
  have hAM := am_facts (stratCounts y) (stratNTrain y ts) hT hntrle
  have hAM1 : (stratTrainAlloc y ts).length = (stratCounts y).length := hAM.1
  have hAM2 : (stratTrainAlloc y ts).sum = stratNTrain y ts := hAM.2.1
  have hAM3 : ∀ pr ∈ (stratTrainAlloc y ts).zip (stratCounts y), pr.1 ≤ pr.2 := hAM.2.2
  have hcountslen : (stratCounts y).length = (npUnique y).length :=
    List.length_map _ _
  have hswaple : ∀ pr ∈ (stratCounts y).zip (stratTrainAlloc y ts),
      pr.2 ≤ pr.1 := by
    intro pr hpr
    have hswap : pr.swap ∈ (stratTrainAlloc y ts).zip (stratCounts y) := by
      rw [← List.zip_swap]
      exact List.mem_map_of_mem Prod.swap hpr
    simpa using hAM3 pr.swap hswap
  have hsub_sum : (((stratCounts y).zip (stratTrainAlloc y ts)).map
      fun q => q.1 - q.2).sum = stratNTest y ts := by
    rw [zip_sub_sum (stratCounts y) (stratTrainAlloc y ts)
      hAM1.symm hswaple, hAM2, hcsum]
    omega
  have htestid : stratTestAlloc y ts = ((stratCounts y).zip (stratTrainAlloc y ts)).map
      fun q => q.1 - q.2 := by
    unfold stratTestAlloc
    exact am_id _ _ hsub_sum (by omega)
  -- the per-class totals
  have htrip : ∀ t ∈ stratTriples y ts, t.2.1 + t.2.2 = (classIndices y t.1).length := by
    unfold stratTriples
    rw [htestid]
    intro t ht
    have hts := triple_sum (fun c => y.countP fun l => decide (l = c))
      (npUnique y) (stratTrainAlloc y ts) (fun pr hpr => hAM3 pr hpr) t ht
    rw [hts, classIndices_length]
  -- project the triples back to the classes
  have htallen : (stratTrainAlloc y ts).length = (npUnique y).length := by
    rw [hAM1, hcountslen]
  have htelen : (stratTestAlloc y ts).length = (npUnique y).length := by
    rw [htestid, List.length_map, List.length_zip, hAM1.symm]
    rw [Nat.min_self, hAM1, hcountslen]
  have hfst : (stratTriples y ts).map Prod.fst = npUnique y := by
    unfold stratTriples
    apply List.map_fst_zip
    rw [List.length_zip, htallen, htelen, Nat.min_self]
  have hmapeq : ((stratTriples y ts).map fun t => classIndices y t.1)
      = (npUnique y).map fun c => classIndices y c := by
    have h1 : ((stratTriples y ts).map fun t => classIndices y t.1)
        = ((stratTriples y ts).map Prod.fst).map fun c => classIndices y c := by
      rw [List.map_map]
      rfl
    rw [h1, hfst]
  have hdraw := strataDraw_perm y (stratTriples y ts) (npSeed seed) htrip
  rw [hmapeq] at hdraw
  rw [htr, hte]
  exact hdraw.trans hpart

theorem stratified_error_singleton (y : List Int) (ts : Rat) (seed : Nat)
    (c : Int) (hc : (y.countP fun l => decide (l = c)) = 1) :
    stratifiedIndices y ts seed =
      .error "The least populated class in y has only 1 member, which is too few." := by
  have hcy : c ∈ y := by
    have hpos : 0 < y.countP fun l => decide (l = c) := by omega
    obtain ⟨a, ha, hpa⟩ := List.countP_pos_iff.mp hpos
    have hac : a = c := of_decide_eq_true hpa
    rwa [hac] at ha
  have hcu : c ∈ npUnique y := (mem_npUnique y c).mpr hcy
  have hnotemp : ¬ ((npUnique y).isEmpty = true) := fun ht => by
    rw [List.isEmpty_iff.mp ht] at hcu
    exact absurd hcu (by simp)
  have hmem : (1 : Nat) ∈ stratCounts y := by
    unfold stratCounts
    exact List.mem_map.mpr ⟨c, hcu, hc⟩
  have hany : ((stratCounts y).any fun k => decide (k < 2)) = true :=
    List.any_eq_true.mpr ⟨1, hmem, by decide⟩
  unfold stratifiedIndices
  rw [if_neg hnotemp, if_pos hany]

theorem tts_error_singleton {α : Type} (X : List α) (y : List Int) (ts : Rat)
    (seed : Nat) (c : Int) (hlen : X.length = y.length)
    (hc : (y.countP fun l => decide (l = c)) = 1) :
    train_test_split X y ts seed =
      .error "The least populated class in y has only 1 member, which is too few." := by
  unfold train_test_split
  rw [if_pos hlen, stratified_error_singleton y ts seed c hc]

/-- C7: when some class of the truncated corpus has only a single member
(fewer than the stratified split can place in both sides), the first
stratified split raises sklearn's data-insufficiency error, and
`get_data_splits` propagates it to the caller unchanged: no partial or
non-stratified split is returned. -/
theorem c7_insufficiency_propagates (p : Params) (w : World) (g : RngState)
    (imgs : List Image) (labs : List Int) (g1 : RngState) (c : Int)
    (hlc : load_combined_dataset p w g = .ok ((imgs, labs), g1))
    (hlen : imgs.length = labs.length)
    (hc : ((labs.take ((⌊(imgs.length : ℚ) * p.TRAINING_PERCENTAGE⌋).toNat)).countP
      fun l => decide (l = c)) = 1) :
    get_data_splits p w g =
      .error "The least populated class in y has only 1 member, which is too few." := by
  unfold get_data_splits
  rw [hlc, except_bind_ok]
  dsimp only
  rw [tts_error_singleton
    (imgs.take ((⌊(imgs.length : ℚ) * p.TRAINING_PERCENTAGE⌋).toNat))
    (labs.take ((⌊(imgs.length : ℚ) * p.TRAINING_PERCENTAGE⌋).toNat))
    (1 / 5) p.SHUFFLE_SEED c (by simp [List.length_take, hlen]) hc]
  rfl

/-- Witness for C7 at a concrete world whose class 1 has a single sample:
the split error is surfaced to the caller of `get_data_splits`. -/
theorem c7_witness :
    get_data_splits paramsSingEx worldSingEx ⟨0⟩ =
      .error "The least populated class in y has only 1 member, which is too few." :=
  c7_insufficiency_propagates paramsSingEx worldSingEx ⟨0⟩
    [⟨9, 9, 3, "uint8", 50⟩, ⟨9, 9, 3, "uint8", 51⟩, ⟨9, 9, 3, "uint8", 52⟩]
    [0, 0, 1] ⟨1000676753⟩ 1
    (by with_unfolding_all rfl) rfl (by with_unfolding_all rfl)

/-- C6: when the stratified splits succeed, the three partitions returned by
`get_data_splits` are selections of pairwise-disjoint index sets into the
truncated corpus whose concatenation is a permutation of all truncated
indices, and their sizes sum to `floor(total * TRAINING_PERCENTAGE)`. -/
theorem c6_splits_partition_truncated (p : Params) (w : World) (g : RngState)
    (tr va te : List Image × List Int) (corpus : List Image × List Int)
    (g1 : RngState)
    (hlc : load_combined_dataset p w g = .ok (corpus, g1))
    (h : get_data_splits p w g = .ok (tr, va, te))
    (hTP1 : p.TRAINING_PERCENTAGE ≤ 1) :
    ∃ Itr Ival Ite : List Nat,
      (Itr ++ Ival ++ Ite).Perm
        (List.range ((⌊(corpus.1.length : ℚ) * p.TRAINING_PERCENTAGE⌋).toNat)) ∧
      List.Disjoint Itr Ival ∧ List.Disjoint Itr Ite ∧ List.Disjoint Ival Ite ∧
      tr.1 = npIndex (corpus.1.take ((⌊(corpus.1.length : ℚ) * p.TRAINING_PERCENTAGE⌋).toNat)) Itr ∧
      tr.2 = npIndex (corpus.2.take ((⌊(corpus.1.length : ℚ) * p.TRAINING_PERCENTAGE⌋).toNat)) Itr ∧
      va.1 = npIndex (corpus.1.take ((⌊(corpus.1.length : ℚ) * p.TRAINING_PERCENTAGE⌋).toNat)) Ival ∧
      va.2 = npIndex (corpus.2.take ((⌊(corpus.1.length : ℚ) * p.TRAINING_PERCENTAGE⌋).toNat)) Ival ∧
      te.1 = npIndex (corpus.1.take ((⌊(corpus.1.length : ℚ) * p.TRAINING_PERCENTAGE⌋).toNat)) Ite ∧
      te.2 = npIndex (corpus.2.take ((⌊(corpus.1.length : ℚ) * p.TRAINING_PERCENTAGE⌋).toNat)) Ite ∧
      tr.1.length + va.1.length + te.1.length
        = (⌊(corpus.1.length : ℚ) * p.TRAINING_PERCENTAGE⌋).toNat := by
  rcases get_data_splits_ok_shapes p w g tr va te h with
    ⟨corpus2, g2, hlc2, ts1, hts1, xtv, ytv, h1, h2⟩
  have hceq : corpus2 = corpus := by
    have := Except.ok.inj (hlc2.symm.trans hlc)
    exact congrArg Prod.fst this
  rw [hceq] at hts1 h1
  subst hts1
  rcases tts_ok_shapes _ _ _ _ _ _ _ _ h1 with
    ⟨hlen1, tr1, te1, hsi1, hxtv, hxte, hytv, hyte⟩
  rcases tts_ok_shapes _ _ _ _ _ _ _ _ h2 with
    ⟨hlen2, tr2, te2, hsi2, hxtr, hxva, hytr, hyva⟩
  have hperm1 := stratifiedIndices_perm _ _ _ _ _ hsi1
  have hperm2 := stratifiedIndices_perm _ _ _ _ _ hsi2
  set ts0 := (⌊(corpus.1.length : ℚ) * p.TRAINING_PERCENTAGE⌋).toNat with hts0def
  set X := corpus.1.take ts0 with hXdef
  set Y := corpus.2.take ts0 with hYdef
  have htsle : ts0 ≤ corpus.1.length := by
    rw [hts0def, Int.toNat_le]
    have hle : (corpus.1.length : ℚ) * p.TRAINING_PERCENTAGE
        ≤ ((corpus.1.length : ℤ) : ℚ) := by
      push_cast
      exact mul_le_of_le_one_right (Nat.cast_nonneg _) hTP1
    have hfl := Int.floor_le_floor hle
    rwa [Int.floor_intCast] at hfl
  have hXlen : X.length = ts0 := by
    rw [hXdef, List.length_take]
    omega
  have hYlen : Y.length = ts0 := by
    rw [← hlen1, hXlen]
  have hb1 : ∀ i ∈ tr1 ++ te1, i < ts0 := fun i hi => by
    have hr := List.mem_range.mp (hperm1.mem_iff.mp hi)
    rwa [hYlen] at hr
  have hbtr1 : ∀ i ∈ tr1, i < ts0 := fun i hi =>
    hb1 i (List.mem_append.mpr (Or.inl hi))
  have hbte1 : ∀ i ∈ te1, i < ts0 := fun i hi =>
    hb1 i (List.mem_append.mpr (Or.inr hi))
  have hbtr1X : ∀ i ∈ tr1, i < X.length := fun i hi => by
    rw [hXlen]
    exact hbtr1 i hi
  have hbtr1Y : ∀ i ∈ tr1, i < Y.length := fun i hi => by
    rw [hYlen]
    exact hbtr1 i hi
  have hbte1X : ∀ i ∈ te1, i < X.length := fun i hi => by
    rw [hXlen]
    exact hbte1 i hi
  have hytvlen : ytv.length = tr1.length := by
    rw [hytv]
    exact npIndex_length_of_lt Y tr1 hbtr1Y
  have hcomp : (npIndex tr1 (tr2 ++ te2)).Perm tr1 := by
    apply npIndex_perm
    rwa [hytvlen] at hperm2
  have happ : npIndex tr1 (tr2 ++ te2) = npIndex tr1 tr2 ++ npIndex tr1 te2 :=
    npIndex_append tr1 tr2 te2
  have hstep : ((npIndex tr1 tr2 ++ npIndex tr1 te2) ++ te1).Perm (tr1 ++ te1) := by
    rw [← happ]
    exact hcomp.append_right te1
  have hpermAll : ((npIndex tr1 tr2 ++ npIndex tr1 te2) ++ te1).Perm
      (List.range ts0) := by
    have hchain := hstep.trans hperm1
    rwa [hYlen] at hchain
  have hpermAll2 : (npIndex tr1 tr2 ++ (npIndex tr1 te2 ++ te1)).Perm
      (List.range ts0) := by
    rwa [← List.append_assoc]
  have hnd : (npIndex tr1 tr2 ++ (npIndex tr1 te2 ++ te1)).Nodup :=
    (hpermAll2.nodup_iff).mpr (List.nodup_range ts0)
  rcases List.nodup_append.mp hnd with ⟨hnd1, hnd23, hdisj1⟩
  rcases List.nodup_append.mp hnd23 with ⟨hnd2, hnd3, hdisj23⟩
  have hdisj12 : List.Disjoint (npIndex tr1 tr2) (npIndex tr1 te2) :=
    fun a ha hb => hdisj1 ha (List.mem_append.mpr (Or.inl hb))
  have hdisj13 : List.Disjoint (npIndex tr1 tr2) te1 :=
    fun a ha hb => hdisj1 ha (List.mem_append.mpr (Or.inr hb))
  have hmemtr2 : ∀ i ∈ npIndex tr1 tr2, i < X.length := fun i hi =>
    hbtr1X i (npIndex_mem tr1 tr2 i hi)
  have hmemte2 : ∀ i ∈ npIndex tr1 te2, i < X.length := fun i hi =>
    hbtr1X i (npIndex_mem tr1 te2 i hi)
  have htr1eq : tr.1 = npIndex X (npIndex tr1 tr2) := by
    rw [hxtr, hxtv, npIndex_npIndex X tr1 tr2 hbtr1X]
  have htr2eq : tr.2 = npIndex Y (npIndex tr1 tr2) := by
    rw [hytr, hytv, npIndex_npIndex Y tr1 tr2 hbtr1Y]
  have hva1eq : va.1 = npIndex X (npIndex tr1 te2) := by
    rw [hxva, hxtv, npIndex_npIndex X tr1 te2 hbtr1X]
  have hva2eq : va.2 = npIndex Y (npIndex tr1 te2) := by
    rw [hyva, hytv, npIndex_npIndex Y tr1 te2 hbtr1Y]
  refine ⟨npIndex tr1 tr2, npIndex tr1 te2, te1, hpermAll, hdisj12, hdisj13,
    hdisj23, htr1eq, htr2eq, hva1eq, hva2eq, hxte, hyte, ?_⟩
  have hltr : tr.1.length = (npIndex tr1 tr2).length := by
    rw [htr1eq]
    exact npIndex_length_of_lt X _ hmemtr2
  have hlva : va.1.length = (npIndex tr1 te2).length := by
    rw [hva1eq]
    exact npIndex_length_of_lt X _ hmemte2
  have hlte : te.1.length = te1.length := by
    rw [hxte]
    exact npIndex_length_of_lt X _ hbte1X
  have hsum := hpermAll2.length_eq
  rw [List.length_append, List.length_append, List.length_range] at hsum
  rw [hltr, hlva, hlte]
  omega

/-- Witness for C6 at a concrete ten-sample two-class world: the split
succeeds and the partition sizes sum to the truncated corpus size. -/
theorem c6_witness :
    get_data_splits paramsTenEx worldTenEx ⟨0⟩ =
      .ok (([⟨9, 9, 3, "uint8", 22⟩, ⟨9, 9, 3, "uint8", 20⟩, ⟨9, 9, 3, "uint8", 21⟩,
          ⟨9, 9, 3, "uint8", 31⟩, ⟨9, 9, 3, "uint8", 30⟩, ⟨9, 9, 3, "uint8", 32⟩],
          [0, 0, 0, 1, 1, 1]),
        ([⟨9, 9, 3, "uint8", 23⟩, ⟨9, 9, 3, "uint8", 34⟩], [0, 1]),
        ([⟨9, 9, 3, "uint8", 24⟩, ⟨9, 9, 3, "uint8", 33⟩], [0, 1])) ∧
    ([⟨9, 9, 3, "uint8", 22⟩, ⟨9, 9, 3, "uint8", 20⟩, ⟨9, 9, 3, "uint8", 21⟩,
        ⟨9, 9, 3, "uint8", 31⟩, ⟨9, 9, 3, "uint8", 30⟩,
        ⟨9, 9, 3, "uint8", 32⟩] : List Image).length
      + ([⟨9, 9, 3, "uint8", 23⟩, ⟨9, 9, 3, "uint8", 34⟩] : List Image).length
      + ([⟨9, 9, 3, "uint8", 24⟩, ⟨9, 9, 3, "uint8", 33⟩] : List Image).length
      = (⌊(([⟨9, 9, 3, "uint8", 32⟩, ⟨9, 9, 3, "uint8", 34⟩, ⟨9, 9, 3, "uint8", 21⟩,
          ⟨9, 9, 3, "uint8", 22⟩, ⟨9, 9, 3, "uint8", 23⟩, ⟨9, 9, 3, "uint8", 30⟩,
          ⟨9, 9, 3, "uint8", 24⟩, ⟨9, 9, 3, "uint8", 20⟩, ⟨9, 9, 3, "uint8", 33⟩,
          ⟨9, 9, 3, "uint8", 31⟩] : List Image).length : ℚ)
        * paramsTenEx.TRAINING_PERCENTAGE⌋).toNat := by
  have hgds : get_data_splits paramsTenEx worldTenEx ⟨0⟩ =
      .ok (([⟨9, 9, 3, "uint8", 22⟩, ⟨9, 9, 3, "uint8", 20⟩, ⟨9, 9, 3, "uint8", 21⟩,
          ⟨9, 9, 3, "uint8", 31⟩, ⟨9, 9, 3, "uint8", 30⟩, ⟨9, 9, 3, "uint8", 32⟩],
          [0, 0, 0, 1, 1, 1]),
        ([⟨9, 9, 3, "uint8", 23⟩, ⟨9, 9, 3, "uint8", 34⟩], [0, 1]),
        ([⟨9, 9, 3, "uint8", 24⟩, ⟨9, 9, 3, "uint8", 33⟩], [0, 1])) := by
    with_unfolding_all rfl
  have hlc : load_combined_dataset paramsTenEx worldTenEx ⟨0⟩ =
      .ok (([⟨9, 9, 3, "uint8", 32⟩, ⟨9, 9, 3, "uint8", 34⟩, ⟨9, 9, 3, "uint8", 21⟩,
          ⟨9, 9, 3, "uint8", 22⟩, ⟨9, 9, 3, "uint8", 23⟩, ⟨9, 9, 3, "uint8", 30⟩,
          ⟨9, 9, 3, "uint8", 24⟩, ⟨9, 9, 3, "uint8", 20⟩, ⟨9, 9, 3, "uint8", 33⟩,
          ⟨9, 9, 3, "uint8", 31⟩],
          [1, 1, 0, 0, 0, 1, 0, 0, 1, 1]), ⟨1535244752⟩) := by
    with_unfolding_all rfl
  refine ⟨hgds, ?_⟩
  obtain ⟨Itr, Ival, Ite, hperm, hd1, hd2, hd3, he1, he2, he3, he4, he5, he6, hsum⟩ :=
    c6_splits_partition_truncated paramsTenEx worldTenEx ⟨0⟩ _ _ _ _ ⟨1535244752⟩
      hlc hgds (le_refl (1 : ℚ))
  exact hsum

/-- Witness for C10 at a concrete corpus: the shuffle outcome (data and
post-call state) is identical for two different incoming global states. -/
theorem c10_witness :
    shuffle_dataset ([1, 2] : List Nat) ([3, 4] : List Int) 5 ⟨0⟩
      = shuffle_dataset [1, 2] [3, 4] 5 ⟨99⟩ :=
  c10_shuffle_reseeds_global_state.1 Nat Int [1, 2] [3, 4] 5 ⟨0⟩ ⟨99⟩
